import Mathlib

set_option maxHeartbeats 1000000
set_option maxRecDepth 100000

/-!
Verification model of `src/lib/api/inline.preboot.code.ts` (preboot).

Strings are modelled as lists of characters (`Str`).  JavaScript values that
can appear in a preboot configuration are modelled by the inductive type
`JVal`; a callable field carries its source text (what `Function.prototype.
toString` returns) and its arity (what `Function.length` returns).  The
JavaScript string operations used by the source (`indexOf`, `substring`,
`String.prototype.replace` with a string pattern, `Array.prototype.join`) are
modelled by `firstIdxOf` / `jsIndexOf`, `jsSubstring`, `jsReplaceFirst` and
`joinSep` with their exact clamping conventions.
-/

abbrev Str := List Char

/-- JavaScript `String.prototype.indexOf` restricted to a successful hit:
index of the first occurrence of `pat` in `s`, `none` when there is none.
An empty pattern matches at index 0, as in JavaScript. -/
def firstIdxOf : Str → Str → Option Nat
  | [], pat => if pat.isPrefixOf ([] : Str) then some 0 else none
  | c :: t, pat =>
    if pat.isPrefixOf (c :: t) then some 0
    else (firstIdxOf t pat).map (· + 1)

/-- Whether `pat` occurs somewhere in `s` as a contiguous substring. -/
def hasSub (s pat : Str) : Bool := (firstIdxOf s pat).isSome

/-- JavaScript `String.prototype.indexOf`: `-1` when the pattern is absent. -/
def jsIndexOf (s pat : Str) : Int :=
  match firstIdxOf s pat with
  | none => -1
  | some i => (i : Int)

/-- JavaScript `String.prototype.substring`: negative arguments clamp to `0`,
arguments beyond the length clamp to the length, and the two endpoints are
swapped when given in decreasing order. -/
def jsSubstring (s : Str) (a b : Int) : Str :=
  let n : Int := (s.length : Int)
  let a2 := max 0 (min a n)
  let b2 := max 0 (min b n)
  let lo := min a2 b2
  let hi := max a2 b2
  (s.take hi.toNat).drop lo.toNat

/-- JavaScript `String.prototype.replace` with a plain string pattern:
replaces only the first occurrence of `pat` by `repl` (and returns the
string unchanged when `pat` does not occur). -/
def jsReplaceFirst (s pat repl : Str) : Str :=
  match firstIdxOf s pat with
  | none => s
  | some i => s.take i ++ repl ++ s.drop (i + pat.length)

/-- JavaScript `Array.prototype.join(sep)` on a list of strings. -/
def joinSep (sep : Str) : List Str → Str
  | [] => []
  | [x] => x
  | x :: y :: t => x ++ sep ++ joinSep sep (y :: t)

/-- JavaScript `fn.replace(/\\n/g, '\n')` from the serializer: every
two-character sequence backslash-`n` is replaced by a literal newline,
scanning left to right without overlap. -/
def unescapeNewlines : Str → Str
  | [] => []
  | [c] => [c]
  | c :: d :: rest =>
    if c = '\\' ∧ d = 'n' then '\n' :: unescapeNewlines rest
    else c :: unescapeNewlines (d :: rest)

/-- JavaScript values reachable from a preboot configuration.  `func` is a
callable: it carries the source text returned by `toString()` and the arity
exposed as the `length` property. -/
inductive JVal where
  | null : JVal
  | bool (b : Bool) : JVal
  | num (n : Int) : JVal
  | str (s : Str) : JVal
  | arr (elems : List JVal) : JVal
  | obj (fields : List (Str × JVal)) : JVal
  | func (src : Str) (arity : Nat) : JVal

/-- A JavaScript object: its own enumerable properties in insertion order. -/
abbrev JObj := List (Str × JVal)

/-- Property read `o[k]`: `none` models `undefined`. -/
def lookupField : JObj → Str → Option JVal
  | [], _ => none
  | (k2, v) :: rest, k => if k2 = k then some v else lookupField rest k

/-- Property write `o[k] = v`: updates an existing key in place (JavaScript
objects keep the original insertion position) or appends a new one. -/
def setField : JObj → Str → JVal → JObj
  | [], k, v => [(k, v)]
  | (k2, v2) :: rest, k, v =>
    if k2 = k then (k2, v) :: rest else (k2, v2) :: setField rest k v

/-- The `for (const nextKey in source) if (source.hasOwnProperty(nextKey))
output[nextKey] = source[nextKey]` loop of `assign`. -/
def copyOwnProps (output : JObj) (source : JObj) : JObj :=
  source.foldl (fun out kv => setField out kv.1 kv.2) output

/-- JavaScript truthiness of a value. -/
def truthy : JVal → Bool
  | .null => false
  | .bool b => b
  | .num n => n != 0
  | .str s => !s.isEmpty
  | .arr _ => true
  | .obj _ => true
  | .func _ _ => true

/-- JavaScript truthiness of a possibly-`undefined` value. -/
def truthyOpt : Option JVal → Bool
  | none => false
  | some v => truthy v

/-- The JavaScript `length` property of a value, `none` for `undefined`:
strings and arrays expose their length, functions their arity, and plain
objects their own `length` field if any. -/
def jsLength : JVal → Option JVal
  | .str s => some (.num (s.length : Int))
  | .arr xs => some (.num (xs.length : Int))
  | .obj fs => lookupField fs ("length".toList)
  | .func _ ar => some (.num (ar : Int))
  | _ => none

/-- Lower-case hexadecimal digit, as produced by `JSON.stringify` in
`\u00xx` escapes. -/
def hexDigitChar : Nat → Char
  | 0 => '0' | 1 => '1' | 2 => '2' | 3 => '3' | 4 => '4'
  | 5 => '5' | 6 => '6' | 7 => '7' | 8 => '8' | 9 => '9'
  | 10 => 'a' | 11 => 'b' | 12 => 'c' | 13 => 'd' | 14 => 'e' | 15 => 'f'
  | _ => '0'

/-- The escape `JSON.stringify` applies to one character inside a string
literal (ECMA-262 QuoteJSONString): named escapes for quote, backslash,
backspace, tab, newline, form feed and carriage return, `\u00xx` for the
remaining control characters, and all other characters verbatim. -/
def escChar (c : Char) : Str :=
  if c = '"' then ['\\', '"']
  else if c = '\\' then ['\\', '\\']
  else if c = '\x08' then ['\\', 'b']
  else if c = '\t' then ['\\', 't']
  else if c = '\n' then ['\\', 'n']
  else if c = '\x0c' then ['\\', 'f']
  else if c = '\r' then ['\\', 'r']
  else if c.toNat < 32 then
    ['\\', 'u', '0', '0', hexDigitChar (c.toNat / 16), hexDigitChar (c.toNat % 16)]
  else [c]

/-- `JSON.stringify` escaping of a whole string body. -/
def escStr (s : Str) : Str := (s.map escChar).flatten

/-- A JSON string literal: the escaped body surrounded by double quotes. -/
def quoteStr (s : Str) : Str := '"' :: escStr s ++ ['"']

/-- Decimal rendering of a natural number, most significant digit first. -/
def natToStr (n : Nat) : Str :=
  if _h : n < 10 then [Nat.digitChar n]
  else natToStr (n / 10) ++ [Nat.digitChar (n % 10)]
termination_by n
decreasing_by exact Nat.div_lt_self (by omega) (by omega)

/-- Decimal rendering of an integer (`JSON.stringify` of an integral
number; the model restricts JavaScript numbers to integers). -/
def intToStr : Int → Str
  | .ofNat n => natToStr n
  | .negSucc n => '-' :: natToStr (n + 1)

/-- The start sentinel marker of `stringifyWithFunctions`. -/
def FUNC_START : Str := "START_FUNCTION_HERE".toList

/-- The stop sentinel marker of `stringifyWithFunctions`. -/
def FUNC_STOP : Str := "STOP_FUNCTION_HERE".toList

/-- Truthiness of the (possibly inherited) `constructor` property: every
plain object inherits the truthy `Object` constructor unless it carries an
own `constructor` field. -/
def ctorTruthy (fs : JObj) : Bool :=
  match lookupField fs ("constructor".toList) with
  | none => true
  | some v => truthy v

/-- The replacer test `!!(value && value.constructor && value.call &&
value.apply)` specialised to plain objects: an object is treated as a
function when it has truthy own `call` and `apply` fields (its
`constructor` is inherited and truthy unless overridden). -/
def objMarkedCallable (fs : JObj) : Bool :=
  ctorTruthy fs && truthyOpt (lookupField fs ("call".toList)) &&
    truthyOpt (lookupField fs ("apply".toList))

/-- Which values the replacer of `stringifyWithFunctions` treats as
callable. -/
def markedAsFunction : JVal → Bool
  | .func _ _ => true
  | .obj fs => objMarkedCallable fs
  | _ => false

/-- `value.toString()` for the values the replacer marks: source text for a
real function, `"[object Object]"` for an object that merely looks
callable.  Other values never reach this call. -/
def jsToString : JVal → Str
  | .func src _ => src
  | .obj _ => "[object Object]".toList
  | _ => []

mutual
/-- `JSON.stringify(obj, replacer)` as performed by `stringifyWithFunctions`:
a value the replacer marks as callable is replaced by the string
`FUNC_START + value.toString() + FUNC_STOP` (then encoded as a JSON string
literal, escapes included); everything else is encoded as standard JSON. -/
def stringifyMarked : JVal → Str
  | .null => "null".toList
  | .bool true => "true".toList
  | .bool false => "false".toList
  | .num n => intToStr n
  | .str s => quoteStr s
  | .func src _ => quoteStr (FUNC_START ++ src ++ FUNC_STOP)
  | .arr xs => '[' :: (joinSep [','] (stringifyMarkedList xs) ++ [']'])
  | .obj fs =>
    if objMarkedCallable fs then
      quoteStr (FUNC_START ++ "[object Object]".toList ++ FUNC_STOP)
    else '{' :: (joinSep [','] (stringifyMarkedFields fs) ++ ['}'])

/-- Element encodings of an array under the marking replacer. -/
def stringifyMarkedList : List JVal → List Str
  | [] => []
  | x :: t => stringifyMarked x :: stringifyMarkedList t

/-- Field encodings of an object under the marking replacer. -/
def stringifyMarkedFields : List (Str × JVal) → List Str
  | [] => []
  | (k, v) :: t => (quoteStr k ++ ':' :: stringifyMarked v) :: stringifyMarkedFields t
end

mutual
/-- Plain `JSON.stringify` (no replacer): the standard structured-data
encoding.  A bare function yields `undefined` (`none`); inside an array it
renders as `null`, inside an object the field is dropped. -/
def stringifyStd : JVal → Option Str
  | .null => some ("null".toList)
  | .bool true => some ("true".toList)
  | .bool false => some ("false".toList)
  | .num n => some (intToStr n)
  | .str s => some (quoteStr s)
  | .func _ _ => none
  | .arr xs => some ('[' :: (joinSep [','] (stringifyStdList xs) ++ [']']))
  | .obj fs => some ('{' :: (joinSep [','] (stringifyStdFields fs) ++ ['}']))

/-- Standard JSON encodings of array elements. -/
def stringifyStdList : List JVal → List Str
  | [] => []
  | x :: t => (stringifyStd x).getD ("null".toList) :: stringifyStdList t

/-- Standard JSON encodings of object fields (undefined fields dropped). -/
def stringifyStdFields : List (Str × JVal) → List Str
  | [] => []
  | (k, v) :: t =>
    match stringifyStd v with
    | none => stringifyStdFields t
    | some sv => (quoteStr k ++ ':' :: sv) :: stringifyStdFields t
end

mutual
/-- No sub-value of the configuration is treated as callable by the
replacer of `stringifyWithFunctions`. -/
def noCallable : JVal → Bool
  | .func _ _ => false
  | .arr xs => noCallableList xs
  | .obj fs => !objMarkedCallable fs && noCallableFields fs
  | _ => true

/-- `noCallable` over array elements. -/
def noCallableList : List JVal → Bool
  | [] => true
  | x :: t => noCallable x && noCallableList t

/-- `noCallable` over object fields. -/
def noCallableFields : List (Str × JVal) → Bool
  | [] => true
  | (_, v) :: t => noCallable v && noCallableFields t
end

/-- The post-processing `while (startFuncIdx >= 0)` loop of
`stringifyWithFunctions`, with explicit fuel: `none` models a run that does
not terminate within the given fuel (the JavaScript loop can diverge on
adversarial marker placements, so totality cannot be assumed).  Each
iteration mirrors the source exactly: find the first start marker, find the
first stop marker, cut the function text out with `substring`, unescape
newline escapes, and splice the text back over the marked span together
with the one character before the start marker and the one after the stop
marker (the quotes the encoder added). -/
def spliceLoop : Nat → Str → Option Str
  | 0, _ => none
  | fuel + 1, str =>
    let startFuncIdx := jsIndexOf str FUNC_START
    if startFuncIdx ≥ 0 then
      let stopFuncIdx := jsIndexOf str FUNC_STOP
      let fn := jsSubstring str (startFuncIdx + (FUNC_START.length : Int)) stopFuncIdx
      let fn2 := unescapeNewlines fn
      spliceLoop fuel
        (jsSubstring str 0 (startFuncIdx - 1) ++ fn2 ++
          jsSubstring str (stopFuncIdx + (FUNC_STOP.length : Int) + 1) (str.length : Int))
    else some str

/-- `stringifyWithFunctions`: stringify with the marking replacer, then
splice every marked span back into live function source text.  The fuel
`length + 1` is enough for every well-formed run (each successful splice
shortens the string); `none` models the divergent runs. -/
def stringifyWithFunctions (obj : JVal) : Option Str :=
  let str := stringifyMarked obj
  spliceLoop (str.length + 1) str

/-- The two error kinds the source can raise: `error` is the plain
`new Error(...)` thrown by `validateOptions` (the ConfigurationError of the
spec), `typeError` the `new TypeError(...)` thrown by `assign` for a
missing target. -/
inductive JsError where
  | error (msg : Str) : JsError
  | typeError (msg : Str) : JsError

/-- The exact message of the configuration validation error. -/
def validateMsg : Str :=
  ("The appRoot is missing from preboot options. This is needed to find the root of your application. Set this value in the preboot options to be a selector for the root element of your app.".toList)

/-- `export const initFunctionName = 'prebootInitFn'`. -/
def initFunctionName : Str := "prebootInitFn".toList

/-- `export const defaultOptions`, transcribed field by field. -/
def defaultOptions : JObj :=
  [ ("buffer".toList, .bool true),
    ("minify".toList, .bool true),
    ("replay".toList, .bool true),
    ("eventSelectors".toList, .arr
      [ .obj [ ("selector".toList, .str ("input,textarea".toList)),
               ("events".toList, .arr [ .str ("keypress".toList), .str ("keyup".toList),
                 .str ("keydown".toList), .str ("input".toList), .str ("change".toList) ]) ],
        .obj [ ("selector".toList, .str ("select,option".toList)),
               ("events".toList, .arr [ .str ("change".toList) ]) ],
        .obj [ ("selector".toList, .str ("input".toList)),
               ("events".toList, .arr [ .str ("keyup".toList) ]),
               ("preventDefault".toList, .bool true),
               ("keyCodes".toList, .arr [ .num 13 ]),
               ("freeze".toList, .bool true) ],
        .obj [ ("selector".toList, .str ("form".toList)),
               ("events".toList, .arr [ .str ("submit".toList) ]),
               ("preventDefault".toList, .bool true),
               ("freeze".toList, .bool true) ],
        .obj [ ("selector".toList, .str ("input,textarea".toList)),
               ("events".toList, .arr [ .str ("focusin".toList), .str ("focusout".toList),
                 .str ("mousedown".toList), .str ("mouseup".toList) ]),
               ("replay".toList, .bool false) ],
        .obj [ ("selector".toList, .str ("button".toList)),
               ("events".toList, .arr [ .str ("click".toList) ]),
               ("preventDefault".toList, .bool true),
               ("freeze".toList, .bool true) ] ]) ]

/-- `assign(target, ...optionSets)`: throws a TypeError on an undefined or
null target, otherwise copies the own enumerable properties of every
non-null option set onto the target, in order. -/
def assign (target : Option JObj) (optionSets : List (Option JObj)) : Except JsError JObj :=
  match target with
  | none => .error (.typeError ("Cannot convert undefined or null to object".toList))
  | some t =>
    .ok (optionSets.foldl (fun output source =>
      match source with
      | none => output
      | some src => copyOwnProps output src) t)

/-- The mount-point selector key. -/
def appRootKey : Str := "appRoot".toList

/-- The test `!opts.appRoot || !opts.appRoot.length` of `validateOptions`.
(The disjunction short-circuits in JavaScript, so the `length` read only
happens when `appRoot` is truthy; as the model's property reads have no
side effects, the plain Boolean disjunction is equivalent.) -/
def appRootInvalid (opts : JObj) : Bool :=
  let appRoot := lookupField opts appRootKey
  !truthyOpt appRoot || !truthyOpt (appRoot.bind jsLength)

/-- `validateOptions(opts)`: throws iff `!opts.appRoot ||
!opts.appRoot.length`. -/
def validateOptions (opts : JObj) : Except JsError Unit :=
  if appRootInvalid opts then
    .error (.error validateMsg)
  else .ok ()

/-- The option resolution step shared by all three emission functions:
`assign({}, defaultOptions, customOptions)`.  A `none` argument models
calling the emission function without the optional `customOptions`. -/
def resolveOpts (customOptions : Option JObj) : Except JsError JObj :=
  assign (some []) [some defaultOptions, customOptions]

/-- The object `resolveOpts` always succeeds with. -/
def resolveObj (customOptions : Option JObj) : JObj :=
  match customOptions with
  | none => copyOwnProps [] defaultOptions
  | some o => copyOwnProps (copyOwnProps [] defaultOptions) o

/-- Modelled from the spec: the procedure registry.  `event.recorder.ts`
and `get-node-key.ts` are not among the sources, so the registry is an
abstract environment: `registry` holds the captured source text of the
seven `eventRecorder` members in insertion order (`start`, `createOverlay`,
`getAppRoots`, `handleEvents`, `createListenHandler`, `getSelection`,
`createBuffer`), `nodeKeySrc` the captured source of `getNodeKeyForPreboot`
and `initSrc` the captured source of `init`.  Source capture
(`Function.prototype.toString`) is modelled as returning the stored text. -/
structure RecorderEnv where
  registry : List Str
  nodeKeySrc : Str
  initSrc : Str

/-- The module-qualification artifact `'common_1.'` stripped from captured
source text. -/
def moduleQual : Str := "common_1.".toList

/-- `getEventRecorderCode()`: push the cleaned source of every registry
member in insertion order, then push the node-key helper source, then join
everything with blank lines and surround with blank lines. -/
def getEventRecorderCode (env : RecorderEnv) : Str :=
  let eventRecorderFunctions :=
    env.registry.foldl (fun acc fn => acc ++ [jsReplaceFirst fn moduleQual []]) []
  let fns := eventRecorderFunctions ++ [env.nodeKeySrc]
  ("\n\n".toList) ++ joinSep ("\n\n".toList) fns ++ ("\n\n".toList)

/-- `getInlinePrebootCodeDefinition(customOptions)`. -/
def getInlinePrebootCodeDefinition (env : RecorderEnv) (customOptions : Option JObj) :
    Except JsError Str :=
  match resolveOpts customOptions with
  | .error e => .error e
  | .ok opts =>
    match validateOptions opts with
    | .error e => .error e
    | .ok _ =>
      let scriptCode := getEventRecorderCode env
      let initStr := env.initSrc
      .ok (("var ".toList) ++ initFunctionName ++ (" = (function() \x7b\n      ".toList) ++
        scriptCode ++ ("\n      return (".toList) ++ jsReplaceFirst initStr moduleQual [] ++
        (");\n    \x7d)();".toList))

/-- `getInlinePrebootCodeInvocation(customOptions)`.  The `Option` inside
the result is the fuel cap of `stringifyWithFunctions` (`none` models its
divergent runs; every run in this development is proved terminating). -/
def getInlinePrebootCodeInvocation (customOptions : Option JObj) :
    Except JsError (Option Str) :=
  match resolveOpts customOptions with
  | .error e => .error e
  | .ok opts =>
    match validateOptions opts with
    | .error e => .error e
    | .ok _ =>
      .ok ((stringifyWithFunctions (.obj opts)).map (fun optsStr =>
        initFunctionName ++ '(' :: (optsStr ++ (");".toList))))

/-- `getInlinePrebootCode(customOptions)`: the legacy combined emission. -/
def getInlinePrebootCode (env : RecorderEnv) (customOptions : Option JObj) :
    Except JsError (Option Str) :=
  match getInlinePrebootCodeDefinition env customOptions with
  | .error e => .error e
  | .ok inlineCodeDefinition =>
    match getInlinePrebootCodeInvocation customOptions with
    | .error e => .error e
    | .ok inv =>
      .ok (inv.map (fun inlineCodeInvocation =>
        ("(function() \x7b\n      ".toList) ++ inlineCodeDefinition ++ ("\n      ".toList) ++
        inlineCodeInvocation ++ ("\n    \x7d)()".toList)))

/-- Numeric value of one hexadecimal digit (either case), as accepted in a
JSON `\uXXXX` escape. -/
def hexVal (c : Char) : Option Nat :=
  if c.isDigit then some (c.toNat - 48)
  else if 'a' ≤ c && c ≤ 'f' then some (c.toNat - 87)
  else if 'A' ≤ c && c ≤ 'F' then some (c.toNat - 55)
  else none

/-- The character named by a single-letter JSON escape. -/
def unescChar (e : Char) : Option Char :=
  if e = '"' then some '"'
  else if e = '\\' then some '\\'
  else if e = '/' then some '/'
  else if e = 'b' then some '\x08'
  else if e = 'f' then some '\x0c'
  else if e = 'n' then some '\n'
  else if e = 'r' then some '\r'
  else if e = 't' then some '\t'
  else none

/-- Body of a JSON string literal (the opening quote already consumed):
returns the decoded characters and the input after the closing quote.
Raw control characters are rejected, as in `JSON.parse`. -/
def parseStrBody : Nat → Str → Option (Str × Str)
  | 0, _ => none
  | _ + 1, [] => none
  | fuel + 1, c :: rest =>
    if c = '"' then some ([], rest)
    else if c = '\\' then
      match rest with
      | [] => none
      | e :: rest2 =>
        if e = 'u' then
          match rest2 with
          | h1 :: h2 :: h3 :: h4 :: rest3 =>
            match hexVal h1, hexVal h2, hexVal h3, hexVal h4 with
            | some v1, some v2, some v3, some v4 =>
              (parseStrBody fuel rest3).map (fun p =>
                (Char.ofNat (((v1 * 16 + v2) * 16 + v3) * 16 + v4) :: p.1, p.2))
            | _, _, _, _ => none
          | _ => none
        else
          match unescChar e with
          | some ch => (parseStrBody fuel rest2).map (fun p => (ch :: p.1, p.2))
          | none => none
    else if c.toNat < 32 then none
    else (parseStrBody fuel rest).map (fun p => (c :: p.1, p.2))

/-- Longest digit prefix of the input, and the rest. -/
def spanDigits : Str → Str × Str
  | [] => ([], [])
  | c :: r =>
    if c.isDigit then
      let p := spanDigits r
      (c :: p.1, p.2)
    else ([], c :: r)

/-- Numeric value of a digit string, most significant digit first. -/
def digitsToNat (ds : Str) : Nat :=
  ds.foldl (fun a c => a * 10 + (c.toNat - 48)) 0

/-- A JSON integer token: optional minus sign followed by at least one
digit.  (The model restricts JSON numbers to integers, so fractional and
exponent forms are not parsed.) -/
def parseNumTok : Str → Option (Int × Str)
  | [] => none
  | c :: r =>
    if c = '-' then
      match spanDigits r with
      | ([], _) => none
      | (ds, rest) => some (-(digitsToNat ds : Int), rest)
    else
      match spanDigits (c :: r) with
      | ([], _) => none
      | (ds, rest) => some ((digitsToNat ds : Int), rest)

mutual
/-- Recursive-descent parser for the JSON texts the serializer emits (no
interior whitespace).  Returns the parsed value and the remaining input.
The fuel bounds the nesting the parser will enter; `jsonParse` supplies
enough for any input of the given length. -/
def parseVal : Nat → Str → Option (JVal × Str)
  | 0, _ => none
  | fuel + 1, s =>
    match s with
    | [] => none
    | c :: r =>
      if c = '"' then
        (parseStrBody (r.length + 1) r).map (fun p => (.str p.1, p.2))
      else if c = '[' then
        match r with
        | [] => none
        | e :: r2 =>
          if e = ']' then some (.arr [], r2)
          else (parseElems fuel (e :: r2)).map (fun p => (.arr p.1, p.2))
      else if c = '{' then
        match r with
        | [] => none
        | e :: r2 =>
          if e = '}' then some (.obj [], r2)
          else (parseFields fuel (e :: r2)).map (fun p => (.obj p.1, p.2))
      else if c = 'n' then
        match r with
        | 'u' :: 'l' :: 'l' :: r2 => some (.null, r2)
        | _ => none
      else if c = 't' then
        match r with
        | 'r' :: 'u' :: 'e' :: r2 => some (.bool true, r2)
        | _ => none
      else if c = 'f' then
        match r with
        | 'a' :: 'l' :: 's' :: 'e' :: r2 => some (.bool false, r2)
        | _ => none
      else if c = '-' || c.isDigit then
        (parseNumTok (c :: r)).map (fun p => (.num p.1, p.2))
      else none

/-- One or more comma-separated array elements, consuming the closing
bracket. -/
def parseElems : Nat → Str → Option (List JVal × Str)
  | 0, _ => none
  | fuel + 1, s =>
    match parseVal fuel s with
    | none => none
    | some (v, r) =>
      match r with
      | ',' :: r2 => (parseElems fuel r2).map (fun p => (v :: p.1, p.2))
      | ']' :: r2 => some ([v], r2)
      | _ => none

/-- One or more comma-separated object fields, consuming the closing
brace. -/
def parseFields : Nat → Str → Option (List (Str × JVal) × Str)
  | 0, _ => none
  | fuel + 1, s =>
    match s with
    | '"' :: r =>
      (match parseStrBody (r.length + 1) r with
      | none => none
      | some (k, r1) =>
        match r1 with
        | ':' :: r2 =>
          match parseVal fuel r2 with
          | none => none
          | some (v, r3) =>
            match r3 with
            | ',' :: r4 => (parseFields fuel r4).map (fun p => ((k, v) :: p.1, p.2))
            | '}' :: r4 => some ([(k, v)], r4)
            | _ => none
        | _ => none)
    | _ => none
end

/-- Parse a complete JSON text: the whole input must be consumed. -/
def jsonParse (s : Str) : Option JVal :=
  match parseVal (s.length + 1) s with
  | some (v, []) => some v
  | _ => none

/-- A character the JSON encoder leaves unescaped. -/
def plainChar (c : Char) : Bool :=
  !(c = '"') && !(c = '\\') && !(c.toNat < 32)

/-- Every character is either left unescaped by the encoder or is a
newline. -/
def plainNL (s : Str) : Bool := s.all (fun c => plainChar c || (c = '\n'))

/-- The text contains no literal backslash immediately followed by the
letter `n`. -/
def noBackslashN : Str → Bool
  | [] => true
  | [_] => true
  | c :: d :: rest => !(c = '\\' && d = 'n') && noBackslashN (d :: rest)

/-- The encoding the spliced function text is claimed to carry: every
character escaped exactly as the JSON encoder escapes it, except that
newlines stay literal. -/
def escExceptNL (s : Str) : Str :=
  (s.map (fun c => if c = '\n' then ['\n'] else escChar c)).flatten

/-- The remaining input does not begin with a digit (so a number token
cannot greedily extend into it). -/
def noDigitHead : Str → Bool
  | [] => true
  | c :: _ => !c.isDigit

mutual
/-- Fuel measure for the parser round trip: an upper bound on the nesting
fuel `parseVal` needs for a serialized value. -/
def jsize : JVal → Nat
  | .arr xs => 1 + jsizeL xs
  | .obj fs => 1 + jsizeF fs
  | _ => 1

/-- `jsize` over array elements. -/
def jsizeL : List JVal → Nat
  | [] => 1
  | x :: t => 1 + max (jsize x) (jsizeL t)

/-- `jsize` over object fields. -/
def jsizeF : List (Str × JVal) → Nat
  | [] => 1
  | (_, v) :: t => 1 + max (jsize v) (jsizeF t)
end

/-- The example configuration of the spec:
`{appRoot: 'app', buffer: true,
eventSelectors: [{selector:'input', events:['change']}]}`. -/
def exampleConfigC5 : JObj :=
  [ (appRootKey, .str ("app".toList)),
    (("buffer".toList), .bool true),
    (("eventSelectors".toList), .arr
      [ .obj [ (("selector".toList), .str ("input".toList)),
               (("events".toList), .arr [ .str ("change".toList) ]) ] ]) ]

/-- A configuration with no callable fields whose one string field happens
to contain the serializer's start/stop sentinel text: the splice loop then
fires on pure data and corrupts the output. -/
def exC1 : JVal :=
  .obj [ (['a'], .str (FUNC_START ++ ['f'] ++ FUNC_STOP)) ]

/-! ## Merge and validation lemmas -/

theorem lookup_setField (o : JObj) (k k2 : Str) (v : JVal) :
    lookupField (setField o k v) k2 =
      if k = k2 then some v else lookupField o k2 := by
  induction o with
  | nil =>
    by_cases h : k = k2 <;> simp [setField, lookupField, h]
  | cons kv rest ih =>
    obtain ⟨k0, v0⟩ := kv
    by_cases h0 : k0 = k
    · subst h0
      by_cases h : k0 = k2 <;> simp [setField, lookupField, h]
    · by_cases h : k0 = k2
      · subst h
        have h1 : ¬ (k = k0) := fun he => h0 he.symm
        simp [setField, h0, lookupField, h1]
      · simp [setField, h0, lookupField, h, ih]

theorem copyOwnProps_cons (t : JObj) (k : Str) (v : JVal) (src : JObj) :
    copyOwnProps t ((k, v) :: src) = copyOwnProps (setField t k v) src := rfl

theorem lookup_copyOwnProps_of_none (src : JObj) (t : JObj) (k : Str)
    (h : lookupField src k = none) :
    lookupField (copyOwnProps t src) k = lookupField t k := by
  induction src generalizing t with
  | nil => rfl
  | cons kv rest ih =>
    obtain ⟨k0, v0⟩ := kv
    by_cases hk : k0 = k
    · simp [lookupField, hk] at h
    · rw [copyOwnProps_cons, ih _ (by simpa [lookupField, hk] using h),
        lookup_setField]
      simp [hk]

theorem lookup_eq_none_of_not_mem (src : JObj) (k : Str)
    (h : ¬ k ∈ src.map Prod.fst) : lookupField src k = none := by
  induction src with
  | nil => rfl
  | cons kv rest ih =>
    obtain ⟨k1, v1⟩ := kv
    have h1 : ¬ (k1 = k) := by
      intro he
      exact h (by rw [List.map_cons]; exact List.mem_cons.mpr (Or.inl he.symm))
    simp only [lookupField, h1, if_false]
    refine ih ?_
    intro hm
    exact h (by rw [List.map_cons]; exact List.mem_cons.mpr (Or.inr hm))

theorem lookup_copyOwnProps (src : JObj) (t : JObj) (k : Str)
    (h : (src.map Prod.fst).Nodup) :
    lookupField (copyOwnProps t src) k =
      (lookupField src k).or (lookupField t k) := by
  induction src generalizing t with
  | nil => simp [copyOwnProps, lookupField]
  | cons kv rest ih =>
    obtain ⟨k0, v0⟩ := kv
    simp only [List.map_cons, List.nodup_cons] at h
    by_cases hk : k0 = k
    · subst hk
      have hnone : lookupField rest k0 = none :=
        lookup_eq_none_of_not_mem rest k0 h.1
      rw [copyOwnProps_cons, lookup_copyOwnProps_of_none _ _ _ hnone,
        lookup_setField]
      simp [lookupField, hnone]
    · rw [copyOwnProps_cons, ih _ h.2, lookup_setField]
      simp [lookupField, hk]

theorem resolveOpts_ok (O : Option JObj) : resolveOpts O = .ok (resolveObj O) := by
  cases O <;> rfl

theorem defaultOptions_keys_nodup : (defaultOptions.map Prod.fst).Nodup := by decide

theorem lookup_resolveObj (O : JObj) (k : Str) (h : (O.map Prod.fst).Nodup) :
    lookupField (resolveObj (some O)) k =
      (lookupField O k).or (lookupField defaultOptions k) := by
  show lookupField (copyOwnProps (copyOwnProps [] defaultOptions) O) k = _
  rw [lookup_copyOwnProps _ _ _ h,
    lookup_copyOwnProps _ _ _ defaultOptions_keys_nodup]
  cases lookupField O k <;> cases lookupField defaultOptions k <;>
    simp [lookupField, Option.or]

theorem validateOptions_eq_error_iff (opts : JObj) :
    validateOptions opts = .error (.error validateMsg) ↔
      appRootInvalid opts = true := by
  cases hb : appRootInvalid opts <;> simp [validateOptions, hb]

theorem appRootInvalid_iff (opts : JObj) :
    appRootInvalid opts = true ↔
      (truthyOpt (lookupField opts appRootKey) = false ∨
       truthyOpt ((lookupField opts appRootKey).bind jsLength) = false) := by
  cases ha : truthyOpt (lookupField opts appRootKey) <;>
    cases hb : truthyOpt ((lookupField opts appRootKey).bind jsLength) <;>
      simp [appRootInvalid, ha, hb]

theorem validate_error_shape (opts : JObj) (e : JsError)
    (h : validateOptions opts = .error e) : e = .error validateMsg := by
  cases hb : appRootInvalid opts <;> simp [validateOptions, hb] at h
  exact h.symm

theorem getInv_error_iff (O : Option JObj) (e : JsError) :
    getInlinePrebootCodeInvocation O = .error e ↔
      validateOptions (resolveObj O) = .error e := by
  rw [getInlinePrebootCodeInvocation, resolveOpts_ok]
  cases hv : validateOptions (resolveObj O) <;> simp [hv]

theorem getDef_error_iff (env : RecorderEnv) (O : Option JObj) (e : JsError) :
    getInlinePrebootCodeDefinition env O = .error e ↔
      validateOptions (resolveObj O) = .error e := by
  rw [getInlinePrebootCodeDefinition, resolveOpts_ok]
  cases hv : validateOptions (resolveObj O) <;> simp [hv]

theorem getComb_error_iff (env : RecorderEnv) (O : Option JObj) (e : JsError) :
    getInlinePrebootCode env O = .error e ↔
      validateOptions (resolveObj O) = .error e := by
  rw [getInlinePrebootCode]
  cases hv : validateOptions (resolveObj O) with
  | error e2 =>
    have hd := (getDef_error_iff env O e2).mpr hv
    simp [hd, hv]
  | ok u =>
    cases hdef : getInlinePrebootCodeDefinition env O with
    | error e2 => exact absurd ((getDef_error_iff env O e2).mp hdef) (by simp [hv])
    | ok d =>
      cases hinv : getInlinePrebootCodeInvocation O with
      | error e2 => exact absurd ((getInv_error_iff O e2).mp hinv) (by simp [hv])
      | ok oi => simp [hdef, hinv, hv]

/-! ## Claims about resolution, validation and assembly -/

/-- C4: for every override object `O` (with the well-formedness every
JavaScript object has: no duplicate keys) and every field name `k`, the
configuration resolved by the public emission functions has `O`'s value at
`k` when `O` defines `k`, and the default configuration's value otherwise.
The override's value is taken wholesale (in particular array and object
values replace the default, they are not merged), since the resolved value
is exactly `O`'s value. -/
theorem claim_C4_merge_precedence (O : JObj) (k : Str)
    (h : (O.map Prod.fst).Nodup) :
    lookupField (resolveObj (some O)) k =
      match lookupField O k with
      | some v => some v
      | none => lookupField defaultOptions k := by
  rw [lookup_resolveObj O k h]
  cases lookupField O k <;> simp [Option.or]

theorem claim_C4_witness :
    lookupField (resolveObj (some [(("buffer".toList), JVal.bool false),
        (("eventSelectors".toList), JVal.arr [])])) ("buffer".toList) =
      match lookupField [(("buffer".toList), JVal.bool false),
          (("eventSelectors".toList), JVal.arr [])] ("buffer".toList) with
      | some v => some v
      | none => lookupField defaultOptions ("buffer".toList) :=
  claim_C4_merge_precedence _ _ (by decide)

/-- C3: for every override object (including the absent one), validation
fails with the ConfigurationError iff the resolved `appRoot` is absent or
empty, provided `appRoot` has its declared TypeScript type
`string | string[]` when present; and each public emission function fails
with exactly that error iff validation fails (so the error propagates
synchronously and, by the `Except` result type, no output text exists on
failure). -/
theorem claim_C3_validation_iff (env : RecorderEnv) (O : Option JObj)
    (hschema : lookupField (resolveObj O) appRootKey = none ∨
      (∃ s, lookupField (resolveObj O) appRootKey = some (.str s)) ∨
      (∃ l, lookupField (resolveObj O) appRootKey = some (.arr l))) :
    (validateOptions (resolveObj O) = .error (.error validateMsg) ↔
      (lookupField (resolveObj O) appRootKey = none ∨
       lookupField (resolveObj O) appRootKey = some (.str []) ∨
       lookupField (resolveObj O) appRootKey = some (.arr []))) ∧
    (getInlinePrebootCodeInvocation O = .error (.error validateMsg) ↔
      validateOptions (resolveObj O) = .error (.error validateMsg)) ∧
    (getInlinePrebootCodeDefinition env O = .error (.error validateMsg) ↔
      validateOptions (resolveObj O) = .error (.error validateMsg)) ∧
    (getInlinePrebootCode env O = .error (.error validateMsg) ↔
      validateOptions (resolveObj O) = .error (.error validateMsg)) := by
  refine ⟨?_, getInv_error_iff O _, getDef_error_iff env O _, getComb_error_iff env O _⟩
  rw [validateOptions_eq_error_iff, appRootInvalid_iff]
  rcases hschema with h | ⟨s, h⟩ | ⟨l, h⟩
  · simp [h, truthyOpt]
  · rw [h]
    cases s <;> simp [truthyOpt, truthy, jsLength, Option.bind] <;> omega
  · rw [h]
    cases l <;> simp [truthyOpt, truthy, jsLength, Option.bind] <;> omega

theorem claim_C3_witness :
    getInlinePrebootCodeInvocation (some []) = .error (.error validateMsg) := by
  have h := claim_C3_validation_iff ⟨[], [], []⟩ (some []) (Or.inl rfl)
  exact h.2.1.mpr (h.1.mpr (Or.inl rfl))

/-- C9: for every registry environment and every override argument
(including the absent one), no public emission function can fail with the
TypeError of the merge helper: each always passes the fresh empty object
`some []` as the merge target, so `assign`'s null-target branch is
unreachable and the only possible failure is the configuration validation
error. -/
theorem claim_C9_no_typeError (env : RecorderEnv) (O : Option JObj)
    (e : JsError) (m : Str)
    (h : getInlinePrebootCodeDefinition env O = .error e ∨
      getInlinePrebootCodeInvocation O = .error e ∨
      getInlinePrebootCode env O = .error e) :
    e ≠ .typeError m := by
  have he : e = .error validateMsg := by
    rcases h with h | h | h
    · exact validate_error_shape _ _ ((getDef_error_iff env O e).mp h)
    · exact validate_error_shape _ _ ((getInv_error_iff O e).mp h)
    · exact validate_error_shape _ _ ((getComb_error_iff env O e).mp h)
  subst he
  exact fun hcon => JsError.noConfusion hcon

theorem claim_C9_witness :
    JsError.error validateMsg ≠ JsError.typeError [] :=
  claim_C9_no_typeError ⟨[], [], []⟩ (some []) (.error validateMsg) []
    (Or.inr (Or.inl rfl))

/-- C8: the serializer and both emission functions are modelled as pure
functions of their argument (the source reads no mutable or ambient state),
so two calls on identical inputs produce byte-identical output text; in
particular the definition emission applied twice to the same registry and
options is byte-identical. -/
theorem claim_C8_determinism (env1 env2 : RecorderEnv) (O1 O2 : Option JObj)
    (v1 v2 : JVal) (henv : env1 = env2) (hO : O1 = O2) (hv : v1 = v2) :
    stringifyWithFunctions v1 = stringifyWithFunctions v2 ∧
    getInlinePrebootCodeDefinition env1 O1 = getInlinePrebootCodeDefinition env2 O2 ∧
    getInlinePrebootCodeInvocation O1 = getInlinePrebootCodeInvocation O2 ∧
    getInlinePrebootCode env1 O1 = getInlinePrebootCode env2 O2 := by
  subst henv; subst hO; subst hv
  exact ⟨rfl, rfl, rfl, rfl⟩

theorem claim_C8_witness :
    stringifyWithFunctions (.obj []) = stringifyWithFunctions (.obj []) ∧
    getInlinePrebootCodeDefinition ⟨[], [], []⟩ none =
      getInlinePrebootCodeDefinition ⟨[], [], []⟩ none ∧
    getInlinePrebootCodeInvocation none = getInlinePrebootCodeInvocation none ∧
    getInlinePrebootCode ⟨[], [], []⟩ none = getInlinePrebootCode ⟨[], [], []⟩ none :=
  claim_C8_determinism ⟨[], [], []⟩ ⟨[], [], []⟩ none none (.obj []) (.obj [])
    rfl rfl rfl

/-- C7: whenever the definition emission yields `d` and the invocation
emission yields `i` for the same configuration, the combined emission
yields exactly `d` and `i` nested, in that order, inside the one outer
self-invoking scoping wrapper `(function() \x7b <d> <i> \x7d)()`. -/
theorem claim_C7_combined_nesting (env : RecorderEnv) (O : Option JObj)
    (d i : Str)
    (hd : getInlinePrebootCodeDefinition env O = .ok d)
    (hi : getInlinePrebootCodeInvocation O = .ok (some i)) :
    getInlinePrebootCode env O =
      .ok (some (("(function() \x7b\n      ".toList) ++ d ++ ("\n      ".toList) ++
        i ++ ("\n    \x7d)()".toList))) := by
  rw [getInlinePrebootCode, hd, hi]
  rfl

theorem claim_C7_witness :
    getInlinePrebootCode ⟨[], ("k".toList), ("i".toList)⟩
        (some [(appRootKey, .str ("app".toList)), (("eventSelectors".toList), .arr [])]) =
      .ok (some (("(function() \x7b\n      ".toList) ++
        ((getInlinePrebootCodeDefinition ⟨[], ("k".toList), ("i".toList)⟩
          (some [(appRootKey, .str ("app".toList)),
            (("eventSelectors".toList), .arr [])])).toOption.getD []) ++
        ("\n      ".toList) ++
        (((getInlinePrebootCodeInvocation
          (some [(appRootKey, .str ("app".toList)),
            (("eventSelectors".toList), .arr [])])).toOption.getD none).getD []) ++
        ("\n    \x7d)()".toList))) :=
  claim_C7_combined_nesting _ _ _ _ rfl rfl

/-! ## Substring-search lemmas -/

theorem firstIdxOf_eq_none_iff (s pat : Str) :
    firstIdxOf s pat = none ↔ ∀ j, ¬ pat <+: s.drop j := by
  induction s with
  | nil =>
    by_cases hp : pat.isPrefixOf ([] : Str)
    · simp only [firstIdxOf, if_pos hp]
      constructor
      · intro h; exact Option.noConfusion h
      · intro h
        exact absurd (List.isPrefixOf_iff_prefix.mp hp) (by simpa using h 0)
    · simp only [firstIdxOf, if_neg hp]
      constructor
      · intro _ j hpre
        rw [List.drop_nil] at hpre
        exact hp (List.isPrefixOf_iff_prefix.mpr hpre)
      · intro _; trivial
  | cons c t ih =>
    by_cases hp : pat.isPrefixOf (c :: t)
    · simp only [firstIdxOf, if_pos hp]
      constructor
      · intro h; exact Option.noConfusion h
      · intro h
        exact absurd (List.isPrefixOf_iff_prefix.mp hp) (by simpa using h 0)
    · simp only [firstIdxOf, if_neg hp]
      constructor
      · intro h j hpre
        cases j with
        | zero =>
          rw [List.drop_zero] at hpre
          exact hp (List.isPrefixOf_iff_prefix.mpr hpre)
        | succ j2 =>
          rw [List.drop_succ_cons] at hpre
          have ht : firstIdxOf t pat = none := by
            cases hft : firstIdxOf t pat with
            | none => rfl
            | some i => rw [hft] at h; simp at h
          exact (ih.mp ht) j2 hpre
      · intro h
        have ht : ∀ j, ¬ pat <+: t.drop j := fun j hpre =>
          h (j + 1) (by simpa [List.drop_succ_cons] using hpre)
        rw [ih.mpr ht]
        rfl

theorem firstIdxOf_eq_some_iff (s pat : Str) (i : Nat) :
    firstIdxOf s pat = some i ↔
      (pat <+: s.drop i) ∧ ∀ j, j < i → ¬ pat <+: s.drop j := by
  induction s generalizing i with
  | nil =>
    by_cases hp : pat.isPrefixOf ([] : Str)
    · simp only [firstIdxOf, if_pos hp]
      have hpre : pat <+: ([] : Str) := List.isPrefixOf_iff_prefix.mp hp
      constructor
      · intro h
        cases h
        exact ⟨by simpa using hpre, by omega⟩
      · rintro ⟨h1, h2⟩
        cases i with
        | zero => rfl
        | succ i2 => exact absurd (by simpa using hpre) (h2 0 (by omega))
    · simp only [firstIdxOf, if_neg hp]
      constructor
      · intro h; exact Option.noConfusion h
      · rintro ⟨h1, h2⟩
        rw [List.drop_nil] at h1
        exact absurd (List.isPrefixOf_iff_prefix.mpr h1) hp
  | cons c t ih =>
    by_cases hp : pat.isPrefixOf (c :: t)
    · simp only [firstIdxOf, if_pos hp]
      have hpre : pat <+: (c :: t) := List.isPrefixOf_iff_prefix.mp hp
      constructor
      · intro h
        cases h
        exact ⟨by simpa using hpre, by omega⟩
      · rintro ⟨h1, h2⟩
        cases i with
        | zero => rfl
        | succ i2 => exact absurd (by simpa using hpre) (h2 0 (by omega))
    · simp only [firstIdxOf, if_neg hp]
      constructor
      · intro h
        cases hft : firstIdxOf t pat with
        | none => rw [hft] at h; simp at h
        | some i2 =>
          rw [hft] at h
          simp only [Option.map_some'] at h
          have hi : i = i2 + 1 := by
            have := Option.some.inj h
            omega
          subst hi
          obtain ⟨g1, g2⟩ := (ih i2).mp hft
          refine ⟨by simpa [List.drop_succ_cons] using g1, ?_⟩
          intro j hj
          cases j with
          | zero =>
            intro hcon
            exact hp (List.isPrefixOf_iff_prefix.mpr (by simpa using hcon))
          | succ j2 =>
            intro hcon
            exact g2 j2 (by omega) (by simpa [List.drop_succ_cons] using hcon)
      · rintro ⟨h1, h2⟩
        cases i with
        | zero =>
          rw [List.drop_zero] at h1
          exact absurd (List.isPrefixOf_iff_prefix.mpr h1) hp
        | succ i2 =>
          have g := (ih i2).mpr ⟨by simpa [List.drop_succ_cons] using h1,
            fun j hj hcon => h2 (j + 1) (by omega)
              (by simpa [List.drop_succ_cons] using hcon)⟩
          rw [g]
          rfl

theorem prefix_drop_take {s pat : Str} {j m : Nat}
    (h : pat <+: s.drop j) (hm : j + pat.length ≤ m) :
    pat <+: (s.take m).drop j := by
  obtain ⟨r, hr⟩ := h
  rw [List.drop_take, ← hr, List.take_append_eq_append_take,
    List.take_of_length_le (by omega)]
  exact List.prefix_append pat _

theorem firstIdxOf_boundary (X pat R : Str) (hp : pat ≠ [])
    (h : hasSub (X ++ pat.dropLast) pat = false) :
    firstIdxOf (X ++ (pat ++ R)) pat = some X.length := by
  have hplen : 1 ≤ pat.length := List.length_pos.mpr hp
  have hnone : firstIdxOf (X ++ pat.dropLast) pat = none := by
    cases hfi : firstIdxOf (X ++ pat.dropLast) pat with
    | none => rfl
    | some k => rw [hasSub, hfi] at h; simp at h
  rw [firstIdxOf_eq_some_iff]
  constructor
  · rw [List.drop_left]
    exact List.prefix_append pat R
  · intro j hj hpre
    have hocc : pat <+: ((X ++ (pat ++ R)).take (X.length + pat.length - 1)).drop j :=
      prefix_drop_take hpre (by omega)
    have htake : (X ++ (pat ++ R)).take (X.length + pat.length - 1) =
        X ++ pat.dropLast := by
      rw [List.take_append_eq_append_take, List.take_of_length_le (by omega)]
      congr 1
      rw [show X.length + pat.length - 1 - X.length = pat.length - 1 by omega,
        List.take_append_eq_append_take,
        show pat.length - 1 - pat.length = 0 by omega]
      simp [List.dropLast_eq_take]
    rw [htake] at hocc
    exact (firstIdxOf_eq_none_iff _ _).mp hnone j hocc

theorem jsReplaceFirst_boundary (X pat Y : Str) (hp : pat ≠ [])
    (h : hasSub (X ++ pat.dropLast) pat = false) :
    jsReplaceFirst (X ++ (pat ++ Y)) pat [] = X ++ Y := by
  rw [jsReplaceFirst, firstIdxOf_boundary X pat Y hp h]
  have hsplit : X ++ (pat ++ Y) = (X ++ pat) ++ Y := by
    rw [List.append_assoc]
  show List.take X.length (X ++ (pat ++ Y)) ++ [] ++
      List.drop (X.length + pat.length) (X ++ (pat ++ Y)) = X ++ Y
  rw [List.take_left, hsplit,
    show X.length + pat.length = (X ++ pat).length by simp,
    List.drop_left]
  simp

/-! ## Registry collector lemmas -/

theorem foldl_push_eq_map (f : Str → Str) (l : List Str) (acc : List Str) :
    l.foldl (fun a fn => a ++ [f fn]) acc = acc ++ l.map f := by
  induction l generalizing acc with
  | nil => simp
  | cons x t ih => simp [ih, List.append_assoc]

theorem joinSep_cons_cons (sep x y : Str) (l : List Str) :
    joinSep sep (x :: y :: l) = x ++ sep ++ joinSep sep (y :: l) := rfl

theorem joinSep_append_singleton (sep x y : Str) (l : List Str) :
    joinSep sep ((y :: l) ++ [x]) = joinSep sep (y :: l) ++ sep ++ x := by
  induction l generalizing y with
  | nil => rfl
  | cons z t ih =>
    show joinSep sep (y :: z :: (t ++ [x])) = _
    rw [joinSep_cons_cons]
    have hz : (z :: t) ++ [x] = z :: (t ++ [x]) := rfl
    rw [← hz, ih z, joinSep_cons_cons]
    simp [List.append_assoc]

theorem getEventRecorderCode_eq (env : RecorderEnv) :
    getEventRecorderCode env =
      ("\n\n".toList) ++
        joinSep ("\n\n".toList)
          (env.registry.map (fun fn => jsReplaceFirst fn moduleQual []) ++
            [env.nodeKeySrc]) ++
      ("\n\n".toList) := by
  show ("\n\n".toList) ++
      joinSep ("\n\n".toList)
        (env.registry.foldl (fun acc fn => acc ++ [jsReplaceFirst fn moduleQual []]) [] ++
          [env.nodeKeySrc]) ++ ("\n\n".toList) = _
  rw [foldl_push_eq_map (fun fn => jsReplaceFirst fn moduleQual []) env.registry []]
  simp

/-- C6: the registry source collector equals the blank-line join, in
insertion order, of the module-qualification-stripped source of every
registry member followed (last) by the node-key helper source, the whole
surrounded by blank lines; consequently the node-key helper's source,
framed by blank lines, is a suffix of the output.  Stripping is the
JavaScript first-occurrence `replace`: whenever a captured text splits as
`X ++ 'common_1.' ++ Y` with no occurrence of the qualifier before that
point, the stripped text is exactly `X ++ Y`. -/
theorem claim_C6_registry_collector (env : RecorderEnv) :
    (getEventRecorderCode env =
      ("\n\n".toList) ++
        joinSep ("\n\n".toList)
          (env.registry.map (fun fn => jsReplaceFirst fn moduleQual []) ++
            [env.nodeKeySrc]) ++
      ("\n\n".toList)) ∧
    ((("\n\n".toList) ++ env.nodeKeySrc ++ ("\n\n".toList)) <:+
      getEventRecorderCode env) ∧
    (∀ X Y : Str, hasSub (X ++ moduleQual.dropLast) moduleQual = false →
      jsReplaceFirst (X ++ (moduleQual ++ Y)) moduleQual [] = X ++ Y) := by
  refine ⟨getEventRecorderCode_eq env, ?_, ?_⟩
  · rw [getEventRecorderCode_eq env]
    cases hreg : env.registry.map (fun fn => jsReplaceFirst fn moduleQual []) with
    | nil =>
      show _ <:+ ("\n\n".toList) ++ joinSep _ [env.nodeKeySrc] ++ _
      exact ⟨[], by simp [joinSep, List.append_assoc]⟩
    | cons y t =>
      rw [joinSep_append_singleton]
      exact ⟨("\n\n".toList) ++ joinSep ("\n\n".toList) (y :: t),
        by simp [List.append_assoc]⟩
  · intro X Y h
    exact jsReplaceFirst_boundary X moduleQual Y (by decide) h

theorem claim_C6_witness :
    jsReplaceFirst (("var k = ".toList) ++ (moduleQual ++ ("getNodeKeyForPreboot;".toList)))
        moduleQual [] =
      ("var k = ".toList) ++ ("getNodeKeyForPreboot;".toList) :=
  (claim_C6_registry_collector ⟨[], [], []⟩).2.2
    ("var k = ".toList) ("getNodeKeyForPreboot;".toList) (by decide)

/-! ## Splice-loop lemmas -/

theorem jsIndexOf_of_some {s pat : Str} {i : Nat} (h : firstIdxOf s pat = some i) :
    jsIndexOf s pat = (i : Int) := by
  rw [jsIndexOf, h]

theorem jsIndexOf_of_none {s pat : Str} (h : firstIdxOf s pat = none) :
    jsIndexOf s pat = -1 := by
  rw [jsIndexOf, h]

theorem take_drop_congr (s : Str) (a b c d : Nat) (h1 : a = c) (h2 : b = d) :
    (s.take a).drop b = (s.take c).drop d := by
  rw [h1, h2]

theorem take_drop_nil (s : Str) (x y : Nat) (h : s.length ≤ y) :
    (s.take x).drop y = [] :=
  List.drop_eq_nil_of_le (le_trans (by rw [List.length_take]; omega) h)

theorem jsSubstring_eq (s : Str) (a b : Int) (h0 : 0 ≤ a) (hab : a ≤ b)
    (hb : b ≤ (s.length : Int)) :
    jsSubstring s a b = (s.take b.toNat).drop a.toNat := by
  unfold jsSubstring
  exact take_drop_congr s _ _ _ _ (by omega) (by omega)

theorem jsSubstring_to_end (s : Str) (a : Int) (h0 : 0 ≤ a) :
    jsSubstring s a (s.length : Int) = s.drop a.toNat := by
  by_cases ha : a ≤ (s.length : Int)
  · rw [jsSubstring_eq s a _ h0 ha le_rfl]
    have h1 : ((s.length : Int)).toNat = s.length := by omega
    rw [h1, List.take_length]
  · have hdrop : s.drop a.toNat = [] := List.drop_eq_nil_of_le (by omega)
    rw [hdrop]
    unfold jsSubstring
    exact take_drop_nil s _ _ (by omega)

theorem spliceLoop_succ (n : Nat) (s : Str) :
    spliceLoop (n + 1) s =
      (if jsIndexOf s FUNC_START ≥ 0 then
        spliceLoop n
          (jsSubstring s 0 (jsIndexOf s FUNC_START - 1) ++
            unescapeNewlines
              (jsSubstring s (jsIndexOf s FUNC_START + (FUNC_START.length : Int))
                (jsIndexOf s FUNC_STOP)) ++
            jsSubstring s (jsIndexOf s FUNC_STOP + (FUNC_STOP.length : Int) + 1)
              (s.length : Int))
      else some s) := rfl

theorem spliceLoop_exit (n : Nat) (s : Str) (h : hasSub s FUNC_START = false) :
    spliceLoop (n + 1) s = some s := by
  have hnone : firstIdxOf s FUNC_START = none := by
    cases hfi : firstIdxOf s FUNC_START with
    | none => rfl
    | some k => rw [hasSub, hfi] at h; simp at h
  rw [spliceLoop_succ, jsIndexOf_of_none hnone, if_neg (by omega)]

theorem spliceLoop_mono : ∀ (m k : Nat) (s r : Str),
    spliceLoop m s = some r → m ≤ k → spliceLoop k s = some r := by
  intro m
  induction m with
  | zero =>
    intro k s r h
    exact absurd h (by simp [spliceLoop])
  | succ m ih =>
    intro k s r h hk
    cases k with
    | zero => omega
    | succ k2 =>
      rw [spliceLoop_succ] at h ⊢
      by_cases hc : jsIndexOf s FUNC_START ≥ 0
      · rw [if_pos hc] at h ⊢
        exact ih k2 _ r h (by omega)
      · rw [if_neg hc] at h ⊢
        exact h

theorem spliceLoop_step (n : Nat) (X E Y : Str) (hX : X ≠ [])
    (h1 : hasSub (X ++ FUNC_START.dropLast) FUNC_START = false)
    (h2 : hasSub ((X ++ FUNC_START ++ E) ++ FUNC_STOP.dropLast) FUNC_STOP = false) :
    spliceLoop (n + 1) (X ++ FUNC_START ++ E ++ FUNC_STOP ++ Y) =
      spliceLoop n (X.dropLast ++ unescapeNewlines E ++ Y.drop 1) := by
  have hFSlen : FUNC_START.length = 19 := by decide
  have hFTlen : FUNC_STOP.length = 18 := by decide
  have hFSne : FUNC_START ≠ [] := by decide
  have hFTne : FUNC_STOP ≠ [] := by decide
  have hXlen : 1 ≤ X.length := List.length_pos.mpr hX
  have hstart : firstIdxOf (X ++ (FUNC_START ++ (E ++ (FUNC_STOP ++ Y)))) FUNC_START =
      some X.length := firstIdxOf_boundary X FUNC_START (E ++ (FUNC_STOP ++ Y)) hFSne h1
  have hgrp : X ++ (FUNC_START ++ (E ++ (FUNC_STOP ++ Y))) =
      (X ++ FUNC_START ++ E) ++ (FUNC_STOP ++ Y) := by
    simp [List.append_assoc]
  have hstop : firstIdxOf (X ++ (FUNC_START ++ (E ++ (FUNC_STOP ++ Y)))) FUNC_STOP =
      some (X.length + 19 + E.length) := by
    rw [hgrp, firstIdxOf_boundary (X ++ FUNC_START ++ E) FUNC_STOP Y hFTne h2]
    congr 1
    simp [hFSlen]
    omega
  have hslen : (X ++ (FUNC_START ++ (E ++ (FUNC_STOP ++ Y)))).length =
      X.length + 19 + E.length + 18 + Y.length := by
    simp [hFSlen, hFTlen]
    omega
  have hassoc : X ++ FUNC_START ++ E ++ FUNC_STOP ++ Y =
      X ++ (FUNC_START ++ (E ++ (FUNC_STOP ++ Y))) := by
    simp [List.append_assoc]
  rw [spliceLoop_succ, hassoc, jsIndexOf_of_some hstart, jsIndexOf_of_some hstop,
    if_pos (by omega : ((X.length : Int) : Int) ≥ 0)]
  congr 1
  have piece1 : jsSubstring (X ++ (FUNC_START ++ (E ++ (FUNC_STOP ++ Y)))) 0
      ((X.length : Int) - 1) = X.dropLast := by
    rw [jsSubstring_eq _ 0 _ (by omega) (by omega) (by rw [hslen]; omega)]
    rw [show (((X.length : Int) - 1)).toNat = X.length - 1 by omega,
      show ((0 : Int)).toNat = 0 by omega, List.drop_zero,
      List.take_append_eq_append_take,
      show X.length - 1 - X.length = 0 by omega, List.take_zero,
      List.append_nil, List.dropLast_eq_take]
  have piece2 : jsSubstring (X ++ (FUNC_START ++ (E ++ (FUNC_STOP ++ Y))))
      ((X.length : Int) + (FUNC_START.length : Int))
      ((X.length + 19 + E.length : Nat) : Int) = E := by
    rw [jsSubstring_eq _ _ _ (by omega) (by rw [hFSlen]; omega) (by rw [hslen]; omega)]
    rw [show (((X.length + 19 + E.length : Nat) : Int)).toNat = X.length + 19 + E.length
        by omega,
      show (((X.length : Int) + (FUNC_START.length : Int))).toNat = X.length + 19
        by omega]
    rw [hgrp,
      show X.length + 19 + E.length = (X ++ FUNC_START ++ E).length by simp [hFSlen]; omega,
      List.take_left]
    have hXFS : X.length + 19 = (X ++ FUNC_START).length := by simp [hFSlen]
    rw [hXFS, List.drop_left]
  have piece3 : jsSubstring (X ++ (FUNC_START ++ (E ++ (FUNC_STOP ++ Y))))
      (((X.length + 19 + E.length : Nat) : Int) + (FUNC_STOP.length : Int) + 1)
      (((X ++ (FUNC_START ++ (E ++ (FUNC_STOP ++ Y)))).length : Int)) = Y.drop 1 := by
    rw [jsSubstring_to_end _ _ (by omega)]
    have hgrp2 : X ++ (FUNC_START ++ (E ++ (FUNC_STOP ++ Y))) =
        (X ++ FUNC_START ++ E ++ FUNC_STOP) ++ Y := by
      simp [List.append_assoc]
    have hidx : ((((X.length + 19 + E.length : Nat) : Int) + (FUNC_STOP.length : Int) +
        1)).toNat = (X ++ FUNC_START ++ E ++ FUNC_STOP).length + 1 := by
      have : (X ++ FUNC_START ++ E ++ FUNC_STOP).length =
          X.length + 19 + E.length + 18 := by simp [hFSlen, hFTlen]; omega
      omega
    rw [hidx, hgrp2, List.drop_append]
  rw [piece1, piece2, piece3]

/-! ## Newline-unescape lemmas -/

theorem unescNL_cons2_bsn (l : Str) :
    unescapeNewlines ('\\' :: 'n' :: l) = '\n' :: unescapeNewlines l := by
  rw [unescapeNewlines, if_pos ⟨rfl, rfl⟩]

theorem unescNL_cons2_of_ne (c d : Char) (l : Str) (h : ¬(c = '\\' ∧ d = 'n')) :
    unescapeNewlines (c :: d :: l) = c :: unescapeNewlines (d :: l) := by
  rw [unescapeNewlines, if_neg h]

theorem unescNL_cons_of_ne (c : Char) (l : Str) (hc : c ≠ '\\') :
    unescapeNewlines (c :: l) = c :: unescapeNewlines l := by
  cases l with
  | nil => rfl
  | cons d l2 => exact unescNL_cons2_of_ne c d l2 (fun h => hc h.1)

theorem unescNL_bs_cons (x : Char) (l : Str) (hx : x ≠ 'n') :
    unescapeNewlines ('\\' :: x :: l) = '\\' :: unescapeNewlines (x :: l) :=
  unescNL_cons2_of_ne _ _ _ (fun h => hx h.2)

theorem escChar_eq_or (c : Char) : escChar c = [c] ∨ ∃ r, escChar c = '\\' :: r := by
  rw [escChar]
  split_ifs <;> simp

theorem escChar_plain (c : Char) (h : plainChar c = true) : escChar c = [c] := by
  have h1 : ¬ (c = '"') := by
    intro he; subst he; exact absurd h (by decide)
  have h2 : ¬ (c = '\\') := by
    intro he; subst he; exact absurd h (by decide)
  have hb : ¬ (c = '\x08') := by
    intro he; subst he; exact absurd h (by decide)
  have ht : ¬ (c = '\t') := by
    intro he; subst he; exact absurd h (by decide)
  have hn : ¬ (c = '\n') := by
    intro he; subst he; exact absurd h (by decide)
  have hf : ¬ (c = '\x0c') := by
    intro he; subst he; exact absurd h (by decide)
  have hr : ¬ (c = '\r') := by
    intro he; subst he; exact absurd h (by decide)
  have h3 : ¬ (c.toNat < 32) := by
    intro hlt
    rw [plainChar] at h
    simp [hlt] at h
  rw [escChar, if_neg h1, if_neg h2, if_neg hb, if_neg ht, if_neg hn, if_neg hf,
    if_neg hr, if_neg h3]

theorem escStr_nil : escStr [] = [] := rfl

theorem escStr_cons (c : Char) (l : Str) :
    escStr (c :: l) = escChar c ++ escStr l := by
  simp [escStr]

theorem escStr_append (a b : Str) : escStr (a ++ b) = escStr a ++ escStr b := by
  simp [escStr]

theorem escExceptNL_cons (c : Char) (l : Str) :
    escExceptNL (c :: l) =
      (if c = '\n' then ['\n'] else escChar c) ++ escExceptNL l := by
  simp [escExceptNL]

theorem noBackslashN_tail {c : Char} {t : Str}
    (h : noBackslashN (c :: t) = true) : noBackslashN t = true := by
  cases t with
  | nil => rfl
  | cons d t2 =>
    rw [noBackslashN, Bool.and_eq_true] at h
    exact h.2

theorem noBackslashN_head {c d : Char} {t : Str}
    (h : noBackslashN (c :: d :: t) = true) : ¬(c = '\\' ∧ d = 'n') := by
  rw [noBackslashN, Bool.and_eq_true] at h
  intro hcd
  obtain ⟨h1, h2⟩ := hcd
  subst h1; subst h2
  simp at h

theorem hexDigitChar_tame (k : Nat) :
    hexDigitChar k ≠ '\\' ∧ hexDigitChar k ≠ 'n' := by
  match k with
  | 0 | 1 | 2 | 3 | 4 | 5 | 6 | 7 | 8 | 9 | 10 | 11 | 12 | 13 | 14 | 15 => exact by decide
  | n + 16 =>
    have h0 : hexDigitChar (n + 16) = '0' := rfl
    rw [h0]
    exact by decide

theorem escStr_head_ne_n {d : Char} (t2 : Str) (hd : d ≠ 'n') :
    unescapeNewlines ('\\' :: escStr (d :: t2)) =
      '\\' :: unescapeNewlines (escStr (d :: t2)) := by
  rw [escStr_cons]
  rcases escChar_eq_or d with hp | ⟨r, hr⟩
  · rw [hp]
    exact unescNL_bs_cons d _ hd
  · rw [hr]
    exact unescNL_bs_cons '\\' _ (by decide)

theorem unescNL_escStr_noBSn (s : Str) (h : noBackslashN s = true) :
    unescapeNewlines (escStr s) = escExceptNL s := by
  induction s with
  | nil => rfl
  | cons c t ih =>
    have ht : noBackslashN t = true := noBackslashN_tail h
    rw [escStr_cons, escExceptNL_cons]
    by_cases hq : c = '"'
    · subst hq
      rw [show escChar '"' = ['\\', '"'] from by decide]
      show unescapeNewlines ('\\' :: '"' :: escStr t) = _
      rw [unescNL_bs_cons '"' _ (by decide), unescNL_cons_of_ne '"' _ (by decide),
        ih ht, if_neg (by decide)]
      rfl
    · by_cases hbs : c = '\\'
      · subst hbs
        rw [show escChar '\\' = ['\\', '\\'] from by decide]
        show unescapeNewlines ('\\' :: '\\' :: escStr t) = _
        rw [unescNL_bs_cons '\\' _ (by decide)]
        rw [if_neg (by decide)]
        cases t with
        | nil => rfl
        | cons d t2 =>
          have hd : d ≠ 'n' := by
            intro he
            exact noBackslashN_head h ⟨rfl, he⟩
          rw [escStr_head_ne_n t2 hd, ih ht]
          rfl
      · by_cases hb8 : c = '\x08'
        · subst hb8
          rw [show escChar '\x08' = ['\\', 'b'] from by decide]
          show unescapeNewlines ('\\' :: 'b' :: escStr t) = _
          rw [unescNL_bs_cons 'b' _ (by decide), unescNL_cons_of_ne 'b' _ (by decide),
            ih ht, if_neg (by decide)]
          rfl
        · by_cases ht9 : c = '\t'
          · subst ht9
            rw [show escChar '\t' = ['\\', 't'] from by decide]
            show unescapeNewlines ('\\' :: 't' :: escStr t) = _
            rw [unescNL_bs_cons 't' _ (by decide), unescNL_cons_of_ne 't' _ (by decide),
              ih ht, if_neg (by decide)]
            rfl
          · by_cases hnl : c = '\n'
            · subst hnl
              rw [show escChar '\n' = ['\\', 'n'] from by decide]
              show unescapeNewlines ('\\' :: 'n' :: escStr t) = _
              rw [unescNL_cons2_bsn, ih ht, if_pos rfl]
              rfl
            · by_cases hf : c = '\x0c'
              · subst hf
                rw [show escChar '\x0c' = ['\\', 'f'] from by decide]
                show unescapeNewlines ('\\' :: 'f' :: escStr t) = _
                rw [unescNL_bs_cons 'f' _ (by decide),
                  unescNL_cons_of_ne 'f' _ (by decide), ih ht,
                  if_neg (by decide)]
                rfl
              · by_cases hcr : c = '\r'
                · subst hcr
                  rw [show escChar '\r' = ['\\', 'r'] from by decide]
                  show unescapeNewlines ('\\' :: 'r' :: escStr t) = _
                  rw [unescNL_bs_cons 'r' _ (by decide),
                    unescNL_cons_of_ne 'r' _ (by decide), ih ht,
                    if_neg (by decide)]
                  rfl
                · by_cases hlt : c.toNat < 32
                  · rw [show escChar c = ['\\', 'u', '0', '0',
                        hexDigitChar (c.toNat / 16), hexDigitChar (c.toNat % 16)] from by
                      rw [escChar, if_neg hq, if_neg hbs, if_neg hb8, if_neg ht9,
                        if_neg hnl, if_neg hf, if_neg hcr, if_pos hlt]]
                    show unescapeNewlines ('\\' :: 'u' :: '0' :: '0' ::
                      hexDigitChar (c.toNat / 16) :: hexDigitChar (c.toNat % 16) ::
                      escStr t) = _
                    rw [unescNL_bs_cons 'u' _ (by decide),
                      unescNL_cons_of_ne 'u' _ (by decide),
                      unescNL_cons_of_ne '0' _ (by decide),
                      unescNL_cons_of_ne '0' _ (by decide),
                      unescNL_cons_of_ne (hexDigitChar (c.toNat / 16)) _
                        (hexDigitChar_tame _).1,
                      unescNL_cons_of_ne (hexDigitChar (c.toNat % 16)) _
                        (hexDigitChar_tame _).1,
                      ih ht, if_neg hnl]
                    rfl
                  · have hpl : plainChar c = true := by
                      rw [plainChar]
                      simp [hq, hbs, hlt]
                    rw [escChar_plain c hpl]
                    show unescapeNewlines (c :: escStr t) = _
                    rw [unescNL_cons_of_ne c _ hbs, ih ht, if_neg hnl]
                    rfl

theorem plainNL_mem {c : Char} {s : Str} (h : plainNL s = true) (hm : c ∈ s) :
    plainChar c = true ∨ c = '\n' := by
  rw [plainNL, List.all_eq_true] at h
  have := h c hm
  rcases Bool.or_eq_true _ _ |>.mp this with h1 | h2
  · exact Or.inl h1
  · exact Or.inr (by simpa using h2)

theorem plainNL_noBackslashN (s : Str) (h : plainNL s = true) :
    noBackslashN s = true := by
  induction s with
  | nil => rfl
  | cons c t ih =>
    have hc : plainChar c = true ∨ c = '\n' := plainNL_mem h (by simp)
    have ht : plainNL t = true := by
      rw [plainNL, List.all_eq_true] at h ⊢
      intro x hx
      exact h x (by simp [hx])
    cases t with
    | nil => rfl
    | cons d t2 =>
      rw [noBackslashN, Bool.and_eq_true]
      refine ⟨?_, ih ht⟩
      have hcbs : ¬ (c = '\\') := by
        rcases hc with h1 | h1
        · intro he; subst he; exact absurd h1 (by decide)
        · intro he; subst he; exact absurd h1 (by decide)
      simp [hcbs]

theorem escExceptNL_plainNL (s : Str) (h : plainNL s = true) : escExceptNL s = s := by
  induction s with
  | nil => rfl
  | cons c t ih =>
    have hc : plainChar c = true ∨ c = '\n' := plainNL_mem h (by simp)
    have ht : plainNL t = true := by
      rw [plainNL, List.all_eq_true] at h ⊢
      intro x hx
      exact h x (by simp [hx])
    rw [escExceptNL_cons, ih ht]
    rcases hc with h1 | h1
    · by_cases hnl : c = '\n'
      · rw [if_pos hnl, hnl]
        rfl
      · rw [if_neg hnl, escChar_plain c h1]
        rfl
    · rw [if_pos h1, h1]
      rfl

theorem unescNL_escStr_plainNL (s : Str) (h : plainNL s = true) :
    unescapeNewlines (escStr s) = s := by
  rw [unescNL_escStr_noBSn s (plainNL_noBackslashN s h), escExceptNL_plainNL s h]

/-! ## Serializer splice claims -/

theorem escStr_FUNC_START : escStr FUNC_START = FUNC_START := by decide

theorem escStr_FUNC_STOP : escStr FUNC_STOP = FUNC_STOP := by decide

/-- C2 (amended): for every configuration of two callable fields `k1 : f1`,
`k2 : f2` in that declaration order — provided the two source texts consist
of encoder-plain characters and newlines, no marker collision arises
anywhere in the serialized stream (hypotheses `h1`–`h5`), and the object
does not fake callability itself — the serializer output is exactly
`{"k1":<f1 source>,"k2":<f2 source>}`: both source texts appear intact, in
the correct relative field positions, with all sentinel marker tokens
removed and no cross-splicing. -/
theorem claim_C2_multi_callable_order (k1 k2 s1 s2 : Str) (a1 a2 : Nat)
    (hmark : objMarkedCallable [(k1, .func s1 a1), (k2, .func s2 a2)] = false)
    (hp1 : plainNL s1 = true) (hp2 : plainNL s2 = true)
    (h1 : hasSub (('{' :: '"' :: (escStr k1 ++ ['"', ':', '"'])) ++
      FUNC_START.dropLast) FUNC_START = false)
    (h2 : hasSub ((('{' :: '"' :: (escStr k1 ++ ['"', ':', '"'])) ++ FUNC_START ++
      escStr s1) ++ FUNC_STOP.dropLast) FUNC_STOP = false)
    (h3 : hasSub ((('{' :: '"' :: (escStr k1 ++ ['"', ':'])) ++ s1 ++
      (',' :: '"' :: (escStr k2 ++ ['"', ':', '"']))) ++
      FUNC_START.dropLast) FUNC_START = false)
    (h4 : hasSub (((('{' :: '"' :: (escStr k1 ++ ['"', ':'])) ++ s1 ++
      (',' :: '"' :: (escStr k2 ++ ['"', ':', '"']))) ++ FUNC_START ++
      escStr s2) ++ FUNC_STOP.dropLast) FUNC_STOP = false)
    (h5 : hasSub ((('{' :: '"' :: (escStr k1 ++ ['"', ':'])) ++ s1 ++
      (',' :: '"' :: (escStr k2 ++ ['"', ':']))) ++ s2 ++ ['}']) FUNC_START = false) :
    stringifyWithFunctions (.obj [(k1, .func s1 a1), (k2, .func s2 a2)]) =
      some ((('{' :: '"' :: (escStr k1 ++ ['"', ':'])) ++ s1 ++
        (',' :: '"' :: (escStr k2 ++ ['"', ':']))) ++ s2 ++ ['}']) := by
  have hFSl : FUNC_START.length = 19 := by decide
  have hbase : stringifyMarked (.obj [(k1, .func s1 a1), (k2, .func s2 a2)]) =
      ('{' :: '"' :: (escStr k1 ++ ['"', ':', '"'])) ++ FUNC_START ++ escStr s1 ++
        FUNC_STOP ++ (('"' :: ',' :: '"' :: (escStr k2 ++ ['"', ':', '"'])) ++
          FUNC_START ++ escStr s2 ++ FUNC_STOP ++ ['"', '}']) := by
    simp [stringifyMarked, stringifyMarkedFields, hmark, quoteStr, joinSep,
      escStr_append, escStr_FUNC_START, escStr_FUNC_STOP, List.append_assoc]
  have hstep1 := spliceLoop_step 2
    ('{' :: '"' :: (escStr k1 ++ ['"', ':', '"'])) (escStr s1)
    (('"' :: ',' :: '"' :: (escStr k2 ++ ['"', ':', '"'])) ++
      FUNC_START ++ escStr s2 ++ FUNC_STOP ++ ['"', '}'])
    (by simp) h1 h2
  have harg1 : ('{' :: '"' :: (escStr k1 ++ ['"', ':', '"'])).dropLast ++
      unescapeNewlines (escStr s1) ++
      ((('"' :: ',' :: '"' :: (escStr k2 ++ ['"', ':', '"'])) ++
        FUNC_START ++ escStr s2 ++ FUNC_STOP ++ ['"', '}']).drop 1) =
      (('{' :: '"' :: (escStr k1 ++ ['"', ':'])) ++ s1 ++
        (',' :: '"' :: (escStr k2 ++ ['"', ':', '"']))) ++
        FUNC_START ++ escStr s2 ++ FUNC_STOP ++ ['"', '}'] := by
    rw [unescNL_escStr_plainNL s1 hp1,
      show ('{' :: '"' :: (escStr k1 ++ ['"', ':', '"'])) =
        ('{' :: '"' :: (escStr k1 ++ ['"', ':'])) ++ ['"'] by simp,
      List.dropLast_concat]
    simp [List.append_assoc]
  have hstep2 := spliceLoop_step 1
    (('{' :: '"' :: (escStr k1 ++ ['"', ':'])) ++ s1 ++
      (',' :: '"' :: (escStr k2 ++ ['"', ':', '"']))) (escStr s2)
    (['"', '}'])
    (by simp) h3 h4
  have harg2 : (('{' :: '"' :: (escStr k1 ++ ['"', ':'])) ++ s1 ++
      (',' :: '"' :: (escStr k2 ++ ['"', ':', '"']))).dropLast ++
      unescapeNewlines (escStr s2) ++ (['"', '}'].drop 1) =
      (('{' :: '"' :: (escStr k1 ++ ['"', ':'])) ++ s1 ++
        (',' :: '"' :: (escStr k2 ++ ['"', ':']))) ++ s2 ++ ['}'] := by
    rw [unescNL_escStr_plainNL s2 hp2,
      show (('{' :: '"' :: (escStr k1 ++ ['"', ':'])) ++ s1 ++
        (',' :: '"' :: (escStr k2 ++ ['"', ':', '"']))) =
        ((('{' :: '"' :: (escStr k1 ++ ['"', ':'])) ++ s1 ++
          (',' :: '"' :: (escStr k2 ++ ['"', ':'])))) ++ ['"'] by simp,
      List.dropLast_concat]
    simp [List.append_assoc]
  have hexit := spliceLoop_exit 0
    ((('{' :: '"' :: (escStr k1 ++ ['"', ':'])) ++ s1 ++
      (',' :: '"' :: (escStr k2 ++ ['"', ':']))) ++ s2 ++ ['}']) h5
  have hfuel3 : spliceLoop 3
      (('{' :: '"' :: (escStr k1 ++ ['"', ':', '"'])) ++ FUNC_START ++ escStr s1 ++
        FUNC_STOP ++ (('"' :: ',' :: '"' :: (escStr k2 ++ ['"', ':', '"'])) ++
          FUNC_START ++ escStr s2 ++ FUNC_STOP ++ ['"', '}'])) =
      some ((('{' :: '"' :: (escStr k1 ++ ['"', ':'])) ++ s1 ++
        (',' :: '"' :: (escStr k2 ++ ['"', ':']))) ++ s2 ++ ['}']) := by
    rw [show (3 : Nat) = 2 + 1 from rfl, hstep1, harg1,
      show (2 : Nat) = 1 + 1 from rfl, hstep2, harg2,
      show (1 : Nat) = 0 + 1 from rfl, hexit]
  show spliceLoop ((stringifyMarked (.obj [(k1, .func s1 a1), (k2, .func s2 a2)])).length + 1)
      (stringifyMarked (.obj [(k1, .func s1 a1), (k2, .func s2 a2)])) = _
  rw [hbase]
  refine spliceLoop_mono 3 _ _ _ hfuel3 ?_
  simp [List.length_append, hFSl]

theorem claim_C2_witness :
    stringifyWithFunctions (.obj
      [(("f1".toList), .func ("function (a) \x7b return a; \x7d".toList) 1),
       (("f2".toList), .func ("function (b) \x7b\n  return b;\n\x7d".toList) 1)]) =
      some ((('{' :: '"' :: (escStr ("f1".toList) ++ ['"', ':'])) ++
        ("function (a) \x7b return a; \x7d".toList) ++
        (',' :: '"' :: (escStr ("f2".toList) ++ ['"', ':']))) ++
        ("function (b) \x7b\n  return b;\n\x7d".toList) ++ ['}']) :=
  claim_C2_multi_callable_order _ _ _ _ 1 1 (by decide) (by decide) (by decide)
    (by decide) (by decide) (by decide) (by decide) (by decide)

/-- C2 fails as originally stated, in two ways.  First, a callable source
containing a character the encoder escapes (here a double quote) is not
reproduced intact: the escape survives the splice.  Second, when the two
callable fields are named `call` and `apply`, the replacer's test
`!!(value && value.constructor && value.call && value.apply)` marks the
configuration object itself as callable and the whole object serializes to
`[object Object]` instead of the two-field form. -/
theorem claim_C2_counterexample :
    ((stringifyWithFunctions (.obj [(("f1".toList), .func ("a\"b".toList) 1),
      (("f2".toList), .func ("c".toList) 0)])).isSome = true ∧
    hasSub ((stringifyWithFunctions (.obj [(("f1".toList), .func ("a\"b".toList) 1),
      (("f2".toList), .func ("c".toList) 0)])).getD []) ("a\"b".toList) = false) ∧
    stringifyWithFunctions (.obj [(("call".toList), .func ("a".toList) 1),
      (("apply".toList), .func ("b".toList) 1)]) =
      some ("[object Object]".toList) :=
  ⟨⟨rfl, by decide⟩, by decide⟩

/-- C10 (amended): during the post-processing splice of one callable field,
exactly one character before the start marker and one character after the
stop marker (the encoder's quotes) are removed, and the spliced text is the
encoder's escaping of the source with only the newline escapes converted
back to literal newlines (`escExceptNL`) — provided the source contains no
literal backslash immediately followed by the letter `n` (such a backslash
escape is half-consumed by the newline unescape, see the counterexample)
and no marker collisions arise. -/
theorem claim_C10_splice_unescape (k s : Str) (a : Nat)
    (hnb : noBackslashN s = true)
    (h1 : hasSub (('{' :: '"' :: (escStr k ++ ['"', ':', '"'])) ++
      FUNC_START.dropLast) FUNC_START = false)
    (h2 : hasSub ((('{' :: '"' :: (escStr k ++ ['"', ':', '"'])) ++ FUNC_START ++
      escStr s) ++ FUNC_STOP.dropLast) FUNC_STOP = false)
    (h3 : hasSub (('{' :: '"' :: (escStr k ++ ['"', ':'])) ++ escExceptNL s ++ ['}'])
      FUNC_START = false) :
    stringifyWithFunctions (.obj [(k, .func s a)]) =
      some (('{' :: '"' :: (escStr k ++ ['"', ':'])) ++ escExceptNL s ++ ['}']) := by
  have hFSl : FUNC_START.length = 19 := by decide
  have hmark : objMarkedCallable [(k, JVal.func s a)] = false := by
    by_cases hc : k = ['c', 'a', 'l', 'l']
    · have hap : lookupField [(k, JVal.func s a)] ['a', 'p', 'p', 'l', 'y'] = none := by
        rw [hc]; rfl
      simp [objMarkedCallable, hap, truthyOpt]
    · have hca : lookupField [(k, JVal.func s a)] ['c', 'a', 'l', 'l'] = none := by
        simp [lookupField, hc]
      simp [objMarkedCallable, hca, truthyOpt]
  have hbase : stringifyMarked (.obj [(k, .func s a)]) =
      ('{' :: '"' :: (escStr k ++ ['"', ':', '"'])) ++ FUNC_START ++ escStr s ++
        FUNC_STOP ++ ['"', '}'] := by
    simp [stringifyMarked, stringifyMarkedFields, hmark, quoteStr, joinSep,
      escStr_append, escStr_FUNC_START, escStr_FUNC_STOP, List.append_assoc]
  have hstep1 := spliceLoop_step 1
    ('{' :: '"' :: (escStr k ++ ['"', ':', '"'])) (escStr s) (['"', '}'])
    (by simp) h1 h2
  have harg1 : ('{' :: '"' :: (escStr k ++ ['"', ':', '"'])).dropLast ++
      unescapeNewlines (escStr s) ++ (['"', '}'].drop 1) =
      ('{' :: '"' :: (escStr k ++ ['"', ':'])) ++ escExceptNL s ++ ['}'] := by
    rw [unescNL_escStr_noBSn s hnb,
      show ('{' :: '"' :: (escStr k ++ ['"', ':', '"'])) =
        ('{' :: '"' :: (escStr k ++ ['"', ':'])) ++ ['"'] by simp,
      List.dropLast_concat]
    simp [List.append_assoc]
  have hexit := spliceLoop_exit 0
    (('{' :: '"' :: (escStr k ++ ['"', ':'])) ++ escExceptNL s ++ ['}']) h3
  have hfuel2 : spliceLoop 2
      (('{' :: '"' :: (escStr k ++ ['"', ':', '"'])) ++ FUNC_START ++ escStr s ++
        FUNC_STOP ++ ['"', '}']) =
      some (('{' :: '"' :: (escStr k ++ ['"', ':'])) ++ escExceptNL s ++ ['}']) := by
    rw [show (2 : Nat) = 1 + 1 from rfl, hstep1, harg1,
      show (1 : Nat) = 0 + 1 from rfl, hexit]
  show spliceLoop ((stringifyMarked (.obj [(k, .func s a)])).length + 1)
      (stringifyMarked (.obj [(k, .func s a)])) = _
  rw [hbase]
  refine spliceLoop_mono 2 _ _ _ hfuel2 ?_
  simp [List.length_append, hFSl]

theorem claim_C10_witness :
    stringifyWithFunctions (.obj [(("freeze".toList),
      .func ("function (n) \x7b\n  return \"x\";\n\x7d".toList) 1)]) =
      some (('{' :: '"' :: (escStr ("freeze".toList) ++ ['"', ':'])) ++
        escExceptNL ("function (n) \x7b\n  return \"x\";\n\x7d".toList) ++ ['}']) :=
  claim_C10_splice_unescape _ _ 1 (by decide) (by decide) (by decide) (by decide)

theorem claim_C10_counterexample :
    stringifyWithFunctions (.obj [(("f".toList), .func ("x\\ny".toList) 0)]) ≠
      some (('{' :: '"' :: (escStr ("f".toList) ++ ['"', ':'])) ++
        escExceptNL ("x\\ny".toList) ++ ['}']) ∧
    stringifyWithFunctions (.obj [(("f".toList), .func ("x\\ny".toList) 0)]) =
      some (['{', '"', 'f', '"', ':', 'x', '\\', '\n', 'y', '}']) := by
  constructor
  · decide
  · rfl

/-- C5: for every override whose resolved configuration validates, the
invocation emission is exactly the well-known entry name applied to the
serialized resolved configuration: `prebootInitFn(<serialized>);` — and on
the spec's example configuration it succeeds, begins with the entry name
and contains the serialized `appRoot`, `buffer` and `eventSelectors`
fields. -/
theorem claim_C5_invocation_shape :
    (∀ O : Option JObj, validateOptions (resolveObj O) = .ok () →
      getInlinePrebootCodeInvocation O =
        .ok ((stringifyWithFunctions (.obj (resolveObj O))).map (fun optsStr =>
          initFunctionName ++ '(' :: (optsStr ++ (");".toList))))) ∧
    (∃ out : Str,
      getInlinePrebootCodeInvocation (some exampleConfigC5) = .ok (some out) ∧
      out.take initFunctionName.length = initFunctionName ∧
      hasSub out ("\"appRoot\":\"app\"".toList) = true ∧
      hasSub out ("\"buffer\":true".toList) = true ∧
      hasSub out
        ("\"eventSelectors\":[\x7b\"selector\":\"input\",\"events\":[\"change\"]\x7d]".toList) =
        true) := by
  constructor
  · intro O hval
    rw [getInlinePrebootCodeInvocation, resolveOpts_ok]
    show (match validateOptions (resolveObj O) with
      | .error e => Except.error e
      | .ok _ => .ok ((stringifyWithFunctions (.obj (resolveObj O))).map (fun optsStr =>
          initFunctionName ++ '(' :: (optsStr ++ (");".toList))))) = _
    rw [hval]
  · refine ⟨(((getInlinePrebootCodeInvocation (some exampleConfigC5)).toOption.getD
      none).getD []), rfl, by decide, by decide, by decide, by decide⟩

theorem claim_C5_witness :
    getInlinePrebootCodeInvocation (some exampleConfigC5) =
      .ok ((stringifyWithFunctions (.obj (resolveObj (some exampleConfigC5)))).map
        (fun optsStr => initFunctionName ++ '(' :: (optsStr ++ (");".toList)))) :=
  claim_C5_invocation_shape.1 (some exampleConfigC5) rfl

/-! ## Parser round-trip lemmas -/

theorem parseStrBody_quote (f : Nat) (r : Str) :
    parseStrBody (f + 1) ('"' :: r) = some ([], r) := rfl

theorem parseStrBody_plain (f : Nat) (c : Char) (l : Str)
    (h1 : ¬ c = '"') (h2 : ¬ c = '\\') (h3 : ¬ c.toNat < 32) :
    parseStrBody (f + 1) (c :: l) =
      (parseStrBody f l).map (fun p => (c :: p.1, p.2)) := by
  rw [parseStrBody.eq_def]
  simp only []
  rw [if_neg h1, if_neg h2, if_neg h3]

theorem parseStrBody_named (f : Nat) (e : Char) (ch : Char) (l : Str)
    (he : ¬ e = 'u') (hc : unescChar e = some ch) :
    parseStrBody (f + 1) ('\\' :: e :: l) =
      (parseStrBody f l).map (fun p => (ch :: p.1, p.2)) := by
  rw [parseStrBody.eq_def]
  simp only []
  rw [if_neg (show ¬ ('\\' : Char) = '"' by decide)]
  simp only [if_true]
  rw [if_neg he, hc]

theorem parseStrBody_u (f : Nat) (h1 h2 h3 h4 : Char) (v1 v2 v3 v4 : Nat) (l : Str)
    (e1 : hexVal h1 = some v1) (e2 : hexVal h2 = some v2) (e3 : hexVal h3 = some v3)
    (e4 : hexVal h4 = some v4) :
    parseStrBody (f + 1) ('\\' :: 'u' :: h1 :: h2 :: h3 :: h4 :: l) =
      (parseStrBody f l).map (fun p =>
        (Char.ofNat (((v1 * 16 + v2) * 16 + v3) * 16 + v4) :: p.1, p.2)) := by
  rw [parseStrBody.eq_def]
  simp only []
  rw [if_neg (show ¬ ('\\' : Char) = '"' by decide)]
  simp only [if_true]
  rw [e1, e2, e3, e4]

theorem isDigit_digitChar {k : Nat} (h : k < 10) : (Nat.digitChar k).isDigit = true := by
  interval_cases k <;> decide

theorem digitChar_val {k : Nat} (h : k < 10) : (Nat.digitChar k).toNat - 48 = k := by
  interval_cases k <;> decide

theorem natToStr_all_digits (n : Nat) : ∀ c ∈ natToStr n, c.isDigit = true := by
  induction n using natToStr.induct with
  | case1 n h =>
    rw [natToStr, dif_pos h]
    intro c hc
    simp at hc
    subst hc
    exact isDigit_digitChar h
  | case2 n h ih =>
    rw [natToStr, dif_neg h]
    intro c hc
    rcases List.mem_append.mp hc with hm | hm
    · exact ih c hm
    · simp at hm
      subst hm
      exact isDigit_digitChar (Nat.mod_lt _ (by omega))

theorem natToStr_ne_nil (n : Nat) : natToStr n ≠ [] := by
  induction n using natToStr.induct with
  | case1 n h =>
    rw [natToStr, dif_pos h]
    simp
  | case2 n h ih =>
    rw [natToStr, dif_neg h]
    simp

theorem digitsToNat_append_digit (a : Str) (d : Char) :
    digitsToNat (a ++ [d]) = digitsToNat a * 10 + (d.toNat - 48) := by
  simp [digitsToNat, List.foldl_append]

theorem digitsToNat_natToStr (n : Nat) : digitsToNat (natToStr n) = n := by
  induction n using natToStr.induct with
  | case1 n h =>
    rw [natToStr, dif_pos h]
    show 0 * 10 + ((Nat.digitChar n).toNat - 48) = n
    rw [digitChar_val h]
    omega
  | case2 n h ih =>
    rw [natToStr, dif_neg h, digitsToNat_append_digit, ih,
      digitChar_val (Nat.mod_lt _ (by omega))]
    omega

theorem spanDigits_append (d r : Str) (hd : ∀ c ∈ d, c.isDigit = true)
    (hr : noDigitHead r = true) : spanDigits (d ++ r) = (d, r) := by
  induction d with
  | nil =>
    cases r with
    | nil => rfl
    | cons c r2 =>
      have hc : c.isDigit = false := by
        rw [noDigitHead] at hr
        simp at hr
        exact hr
      simp [spanDigits, hc]
  | cons c d2 ih =>
    have hc : c.isDigit = true := hd c (by simp)
    have ih2 := ih (fun x hx => hd x (by simp [hx]))
    rw [List.cons_append, spanDigits.eq_def]
    simp only []
    rw [if_pos hc]
    show (c :: (spanDigits (d2 ++ r)).1, (spanDigits (d2 ++ r)).2) = (c :: d2, r)
    rw [ih2]

theorem isDigit_ne_minus {c : Char} (h : c.isDigit = true) : ¬ c = '-' := by
  intro he
  subst he
  exact absurd h (by decide)

theorem parseNumTok_intToStr (n : Int) (r : Str) (hr : noDigitHead r = true) :
    parseNumTok (intToStr n ++ r) = some (n, r) := by
  cases n with
  | ofNat m =>
    show parseNumTok (natToStr m ++ r) = some ((m : Int), r)
    obtain ⟨d, ds, hds⟩ : ∃ d ds, natToStr m = d :: ds := by
      cases hnt : natToStr m with
      | nil => exact absurd hnt (natToStr_ne_nil m)
      | cons d ds => exact ⟨d, ds, rfl⟩
    have hdig : d.isDigit = true := by
      have hall := natToStr_all_digits m
      rw [hds] at hall
      exact hall d (by simp)
    rw [hds, List.cons_append, parseNumTok, if_neg (isDigit_ne_minus hdig),
      ← List.cons_append, ← hds, spanDigits_append _ _ (natToStr_all_digits m) hr,
      hds]
    show some ((digitsToNat (d :: ds) : Int), r) = some ((m : Int), r)
    rw [← hds, digitsToNat_natToStr]
  | negSucc m =>
    show parseNumTok ('-' :: (natToStr (m + 1) ++ r)) = some (Int.negSucc m, r)
    rw [parseNumTok, if_pos rfl,
      spanDigits_append _ _ (natToStr_all_digits (m + 1)) hr]
    obtain ⟨d, ds, hds⟩ : ∃ d ds, natToStr (m + 1) = d :: ds := by
      cases hnt : natToStr (m + 1) with
      | nil => exact absurd hnt (natToStr_ne_nil (m + 1))
      | cons d ds => exact ⟨d, ds, rfl⟩
    rw [hds]
    show some (-((digitsToNat (d :: ds) : Nat) : Int), r) = some (Int.negSucc m, r)
    rw [← hds, digitsToNat_natToStr]
    have hneg : Int.negSucc m = -(((m + 1 : Nat) : Int)) := by
      rw [Int.negSucc_eq]
      push_cast
      ring
    rw [hneg]

theorem hexVal_hexDigitChar (k : Nat) (hk : k < 16) :
    hexVal (hexDigitChar k) = some k := by
  interval_cases k <;> decide

theorem parseStrBody_rt (s : Str) : ∀ (fuel : Nat) (r : Str), s.length < fuel →
    parseStrBody fuel (escStr s ++ ('"' :: r)) = some (s, r) := by
  induction s with
  | nil =>
    intro fuel r h
    cases fuel with
    | zero => omega
    | succ f => exact parseStrBody_quote f r
  | cons c t ih =>
    intro fuel r h
    cases fuel with
    | zero => omega
    | succ f =>
      have ht : t.length < f := by simp at h; omega
      rw [escStr_cons, List.append_assoc]
      by_cases hq : c = '"'
      · subst hq
        rw [show escChar '"' = ['\\', '"'] from by decide]
        show parseStrBody (f + 1) ('\\' :: '"' :: (escStr t ++ '"' :: r)) = _
        rw [parseStrBody_named f '"' '"' _ (by decide) (by decide), ih f r ht]
        rfl
      · by_cases hbs : c = '\\'
        · subst hbs
          rw [show escChar '\\' = ['\\', '\\'] from by decide]
          show parseStrBody (f + 1) ('\\' :: '\\' :: (escStr t ++ '"' :: r)) = _
          rw [parseStrBody_named f '\\' '\\' _ (by decide) (by decide), ih f r ht]
          rfl
        · by_cases hb8 : c = '\x08'
          · subst hb8
            rw [show escChar '\x08' = ['\\', 'b'] from by decide]
            show parseStrBody (f + 1) ('\\' :: 'b' :: (escStr t ++ '"' :: r)) = _
            rw [parseStrBody_named f 'b' '\x08' _ (by decide) (by decide), ih f r ht]
            rfl
          · by_cases ht9 : c = '\t'
            · subst ht9
              rw [show escChar '\t' = ['\\', 't'] from by decide]
              show parseStrBody (f + 1) ('\\' :: 't' :: (escStr t ++ '"' :: r)) = _
              rw [parseStrBody_named f 't' '\t' _ (by decide) (by decide), ih f r ht]
              rfl
            · by_cases hnl : c = '\n'
              · subst hnl
                rw [show escChar '\n' = ['\\', 'n'] from by decide]
                show parseStrBody (f + 1) ('\\' :: 'n' :: (escStr t ++ '"' :: r)) = _
                rw [parseStrBody_named f 'n' '\n' _ (by decide) (by decide), ih f r ht]
                rfl
              · by_cases hff : c = '\x0c'
                · subst hff
                  rw [show escChar '\x0c' = ['\\', 'f'] from by decide]
                  show parseStrBody (f + 1) ('\\' :: 'f' :: (escStr t ++ '"' :: r)) = _
                  rw [parseStrBody_named f 'f' '\x0c' _ (by decide) (by decide),
                    ih f r ht]
                  rfl
                · by_cases hcr : c = '\r'
                  · subst hcr
                    rw [show escChar '\r' = ['\\', 'r'] from by decide]
                    show parseStrBody (f + 1) ('\\' :: 'r' :: (escStr t ++ '"' :: r)) = _
                    rw [parseStrBody_named f 'r' '\r' _ (by decide) (by decide),
                      ih f r ht]
                    rfl
                  · by_cases hlt : c.toNat < 32
                    · rw [show escChar c = ['\\', 'u', '0', '0',
                          hexDigitChar (c.toNat / 16), hexDigitChar (c.toNat % 16)]
                          from by
                        rw [escChar, if_neg hq, if_neg hbs, if_neg hb8, if_neg ht9,
                          if_neg hnl, if_neg hff, if_neg hcr, if_pos hlt]]
                      show parseStrBody (f + 1) ('\\' :: 'u' :: '0' :: '0' ::
                        hexDigitChar (c.toNat / 16) :: hexDigitChar (c.toNat % 16) ::
                        (escStr t ++ '"' :: r)) = _
                      rw [parseStrBody_u f '0' '0'
                          (hexDigitChar (c.toNat / 16)) (hexDigitChar (c.toNat % 16))
                          0 0 (c.toNat / 16) (c.toNat % 16) _
                          (by decide) (by decide)
                          (hexVal_hexDigitChar _ (by omega))
                          (hexVal_hexDigitChar _ (by omega)),
                        ih f r ht]
                      have harith : ((0 * 16 + 0) * 16 + c.toNat / 16) * 16 +
                          c.toNat % 16 = c.toNat := by omega
                      rw [harith, Char.ofNat_toNat]
                      rfl
                    · rw [escChar_plain c (by rw [plainChar]; simp [hq, hbs, hlt])]
                      show parseStrBody (f + 1) (c :: (escStr t ++ '"' :: r)) = _
                      rw [parseStrBody_plain f c _ hq hbs hlt, ih f r ht]
                      rfl

theorem jsize_pos (v : JVal) : 1 ≤ jsize v := by
  cases v <;> simp [jsize]

theorem jsizeL_pos (l : List JVal) : 1 ≤ jsizeL l := by
  cases l <;> simp [jsizeL]

theorem jsizeF_pos (l : List (Str × JVal)) : 1 ≤ jsizeF l := by
  cases l with
  | nil => simp [jsizeF]
  | cons kv t =>
    obtain ⟨k, v⟩ := kv
    simp [jsizeF]

theorem jsize_lt_of_mem {x : JVal} {xs : List JVal} (h : x ∈ xs) :
    jsize x < jsizeL xs := by
  induction xs with
  | nil => simp at h
  | cons y t ih =>
    rcases List.mem_cons.mp h with rfl | hm
    · rw [jsizeL]
      have hmx := le_max_left (jsize x) (jsizeL t)
      omega
    · rw [jsizeL]
      have h1 := ih hm
      have hmx := le_max_right (jsize y) (jsizeL t)
      omega

theorem jsize_lt_of_memF {k : Str} {v : JVal} {fs : List (Str × JVal)}
    (h : (k, v) ∈ fs) : jsize v < jsizeF fs := by
  induction fs with
  | nil => simp at h
  | cons kv t ih =>
    obtain ⟨k2, v2⟩ := kv
    rcases List.mem_cons.mp h with heq | hm
    · obtain ⟨h1, h2⟩ := Prod.mk.injEq .. ▸ heq
      subst h2
      rw [jsizeF]
      have hmx := le_max_left (jsize v) (jsizeF t)
      omega
    · rw [jsizeF]
      have h1 := ih hm
      have hmx := le_max_right (jsize v2) (jsizeF t)
      omega

theorem noCallable_of_memL {x : JVal} {xs : List JVal}
    (h : noCallableList xs = true) (hm : x ∈ xs) : noCallable x = true := by
  induction xs with
  | nil => simp at hm
  | cons y t ih =>
    rw [noCallableList, Bool.and_eq_true] at h
    rcases List.mem_cons.mp hm with rfl | hm2
    · exact h.1
    · exact ih h.2 hm2

theorem noCallable_of_memF {k : Str} {v : JVal} {fs : List (Str × JVal)}
    (h : noCallableFields fs = true) (hm : (k, v) ∈ fs) : noCallable v = true := by
  induction fs with
  | nil => simp at hm
  | cons kv t ih =>
    obtain ⟨k2, v2⟩ := kv
    rw [noCallableFields, Bool.and_eq_true] at h
    rcases List.mem_cons.mp hm with heq | hm2
    · obtain ⟨h1, h2⟩ := Prod.mk.injEq .. ▸ heq
      subst h2
      exact h.1
    · exact ih h.2 hm2

theorem escChar_length_pos (c : Char) : 1 ≤ (escChar c).length := by
  rw [escChar]
  split_ifs <;> simp

theorem escStr_length_ge (s : Str) : s.length ≤ (escStr s).length := by
  induction s with
  | nil => simp [escStr]
  | cons c t ih =>
    rw [escStr_cons, List.length_append]
    have := escChar_length_pos c
    simp only [List.length_cons]
    omega

theorem stringifyMarked_ne_nil (v : JVal) : stringifyMarked v ≠ [] := by
  cases v with
  | null => decide
  | bool b => cases b <;> decide
  | num n =>
    cases n with
    | ofNat m =>
      show natToStr m ≠ []
      exact natToStr_ne_nil m
    | negSucc m => simp [stringifyMarked, intToStr]
  | str s => simp [stringifyMarked, quoteStr]
  | arr xs => simp [stringifyMarked]
  | obj fs =>
    rw [stringifyMarked]
    split_ifs <;> simp [quoteStr]
  | func src a => simp [stringifyMarked, quoteStr]

theorem stringifyMarked_length_pos (v : JVal) : 1 ≤ (stringifyMarked v).length := by
  have h := stringifyMarked_ne_nil v
  cases hs : stringifyMarked v with
  | nil => exact absurd hs h
  | cons c t => simp

theorem stringifyMarked_head_not_closer (v : JVal) :
    ∀ c rest, stringifyMarked v = c :: rest → (¬ c = ']' ∧ ¬ c = '}') := by
  cases v with
  | null => intro c rest h; cases h; decide
  | bool b => cases b <;> (intro c rest h; cases h; decide)
  | num n =>
    cases n with
    | ofNat m =>
      intro c rest h
      have hd : c.isDigit = true := by
        have hall := natToStr_all_digits m
        rw [show natToStr m = stringifyMarked (.num (.ofNat m)) from rfl, h] at hall
        exact hall c (by simp)
      constructor
      · intro he; subst he; exact absurd hd (by decide)
      · intro he; subst he; exact absurd hd (by decide)
    | negSucc m =>
      intro c rest h
      have : c = '-' := by
        have h2 : '-' :: natToStr (m + 1) = c :: rest := h
        exact (List.cons.injEq .. ▸ h2).1.symm
      subst this
      decide
  | str s =>
    intro c rest h
    have : c = '"' := (List.cons.injEq .. ▸ (show '"' :: (escStr s ++ ['"']) = c :: rest from h)).1.symm
    subst this
    decide
  | arr xs =>
    intro c rest h
    have : c = '[' := (List.cons.injEq .. ▸ (show '[' :: (joinSep [','] (stringifyMarkedList xs) ++ [']']) = c :: rest from h)).1.symm
    subst this
    decide
  | obj fs =>
    intro c rest h
    rw [stringifyMarked] at h
    by_cases hm : objMarkedCallable fs = true
    · rw [if_pos hm] at h
      have : c = '"' := (List.cons.injEq .. ▸ (show '"' :: (escStr (FUNC_START ++ "[object Object]".toList ++ FUNC_STOP) ++ ['"']) = c :: rest from h)).1.symm
      subst this
      decide
    · rw [if_neg hm] at h
      have : c = '{' := (List.cons.injEq .. ▸ (show '{' :: (joinSep [','] (stringifyMarkedFields fs) ++ ['}']) = c :: rest from h)).1.symm
      subst this
      decide
  | func src a =>
    intro c rest h
    have : c = '"' := (List.cons.injEq .. ▸ (show '"' :: (escStr (FUNC_START ++ src ++ FUNC_STOP) ++ ['"']) = c :: rest from h)).1.symm
    subst this
    decide

theorem noDigitHead_cons_of (c : Char) (r : Str) (h : c.isDigit = false) :
    noDigitHead (c :: r) = true := by
  simp [noDigitHead, h]

theorem parseElems_rt (xs : List JVal)
    (hpt : ∀ x ∈ xs, ∀ (fuel : Nat) (r : Str), jsize x ≤ fuel →
      noDigitHead r = true → parseVal fuel (stringifyMarked x ++ r) = some (x, r))
    (hne : xs ≠ []) :
    ∀ (fuel : Nat) (r : Str), jsizeL xs ≤ fuel →
    parseElems fuel (joinSep [','] (stringifyMarkedList xs) ++ (']' :: r)) =
      some (xs, r) := by
  induction xs with
  | nil => exact absurd rfl hne
  | cons x t ih =>
    intro fuel r hfuel
    cases fuel with
    | zero =>
      have := jsizeL_pos (x :: t)
      omega
    | succ f =>
      have hxf : jsize x ≤ f := by
        rw [jsizeL] at hfuel
        have := le_max_left (jsize x) (jsizeL t)
        omega
      cases t with
      | nil =>
        show parseElems (f + 1) (joinSep [','] [stringifyMarked x] ++ (']' :: r)) =
          some ([x], r)
        rw [show joinSep [','] [stringifyMarked x] = stringifyMarked x from rfl,
          parseElems.eq_def]
        simp only []
        rw [hpt x (by simp) f (']' :: r) hxf (noDigitHead_cons_of _ _ (by decide))]
        rfl
      | cons y t2 =>
        rw [show joinSep [','] (stringifyMarkedList (x :: y :: t2)) ++ (']' :: r) =
          stringifyMarked x ++ (',' ::
            (joinSep [','] (stringifyMarkedList (y :: t2)) ++ (']' :: r))) from by
          show joinSep [','] (stringifyMarked x :: stringifyMarkedList (y :: t2)) ++
            (']' :: r) = _
          cases hsm : stringifyMarkedList (y :: t2) with
          | nil => exact absurd hsm (by simp [stringifyMarkedList])
          | cons z zs =>
            rw [joinSep_cons_cons]
            simp [List.append_assoc]]
        rw [parseElems.eq_def]
        simp only []
        rw [hpt x (by simp) f _ hxf (noDigitHead_cons_of _ _ (by decide))]
        simp only []
        rw [ih (fun z hz => hpt z (by simp [hz])) (by simp) f r
          (by
            rw [jsizeL] at hfuel
            have := le_max_right (jsize x) (jsizeL (y :: t2))
            omega)]
        rfl

theorem parseFields_rt (fs : List (Str × JVal))
    (hpt : ∀ k v, (k, v) ∈ fs → ∀ (fuel : Nat) (r : Str), jsize v ≤ fuel →
      noDigitHead r = true → parseVal fuel (stringifyMarked v ++ r) = some (v, r))
    (hne : fs ≠ []) :
    ∀ (fuel : Nat) (r : Str), jsizeF fs ≤ fuel →
    parseFields fuel (joinSep [','] (stringifyMarkedFields fs) ++ ('}' :: r)) =
      some (fs, r) := by
  induction fs with
  | nil => exact absurd rfl hne
  | cons kv t ih =>
    obtain ⟨k, v⟩ := kv
    intro fuel r hfuel
    cases fuel with
    | zero =>
      have := jsizeF_pos ((k, v) :: t)
      omega
    | succ f =>
      have hvf : jsize v ≤ f := by
        rw [jsizeF] at hfuel
        have := le_max_left (jsize v) (jsizeF t)
        omega
      cases t with
      | nil =>
        rw [show joinSep [','] (stringifyMarkedFields [(k, v)]) ++ ('}' :: r) =
          '"' :: (escStr k ++ ('"' :: (':' :: (stringifyMarked v ++ ('}' :: r)))))
          from by
            show (quoteStr k ++ ':' :: stringifyMarked v) ++ ('}' :: r) = _
            simp [quoteStr, List.append_assoc]]
        rw [parseFields.eq_def]
        simp only []
        rw [parseStrBody_rt k _ _ (by
          have := escStr_length_ge k
          simp only [List.length_append, List.length_cons]
          omega)]
        simp only []
        rw [hpt k v (by simp) f _ hvf (noDigitHead_cons_of _ _ (by decide))]
        rfl
      | cons kv2 t2 =>
        obtain ⟨k2, v2⟩ := kv2
        rw [show joinSep [','] (stringifyMarkedFields ((k, v) :: (k2, v2) :: t2)) ++
          ('}' :: r) =
          '"' :: (escStr k ++ ('"' :: (':' :: (stringifyMarked v ++ (',' ::
            (joinSep [','] (stringifyMarkedFields ((k2, v2) :: t2)) ++ ('}' :: r)))))))
          from by
            show joinSep [','] ((quoteStr k ++ ':' :: stringifyMarked v) ::
              (quoteStr k2 ++ ':' :: stringifyMarked v2) ::
              stringifyMarkedFields t2) ++ ('}' :: r) = _
            rw [joinSep_cons_cons]
            show ((quoteStr k ++ ':' :: stringifyMarked v) ++ [','] ++
              joinSep [','] ((quoteStr k2 ++ ':' :: stringifyMarked v2) ::
                stringifyMarkedFields t2)) ++ ('}' :: r) = _
            simp [quoteStr, List.append_assoc, stringifyMarkedFields]]
        rw [parseFields.eq_def]
        simp only []
        rw [parseStrBody_rt k _ _ (by
          have := escStr_length_ge k
          simp only [List.length_append, List.length_cons]
          omega)]
        simp only []
        rw [hpt k v (by simp) f _ hvf (noDigitHead_cons_of _ _ (by decide))]
        simp only []
        rw [ih (fun k3 v3 h3 => hpt k3 v3 (by simp [h3])) (by simp) f r
          (by
            rw [jsizeF] at hfuel
            have := le_max_right (jsize v) (jsizeF ((k2, v2) :: t2))
            omega)]
        rfl

theorem parseVal_rt : ∀ (N : Nat) (v : JVal), jsize v ≤ N → noCallable v = true →
    ∀ (fuel : Nat) (r : Str), jsize v ≤ fuel → noDigitHead r = true →
    parseVal fuel (stringifyMarked v ++ r) = some (v, r) := by
  intro N
  induction N with
  | zero =>
    intro v hN
    have := jsize_pos v
    omega
  | succ n ih =>
    intro v hN hnc fuel r hfuel hr
    cases fuel with
    | zero =>
      have := jsize_pos v
      omega
    | succ f =>
      cases v with
      | null => rfl
      | bool b => cases b <;> rfl
      | func src a => simp [noCallable] at hnc
      | str s =>
        have hin : stringifyMarked (JVal.str s) ++ r =
            '"' :: (escStr s ++ ('"' :: r)) := by
          show (('"' :: escStr s) ++ ['"']) ++ r = _
          simp [List.append_assoc]
        rw [hin, parseVal.eq_def]
        simp only [if_true]
        rw [parseStrBody_rt s _ r (by
          simp only [List.length_append, List.length_cons]
          have := escStr_length_ge s
          omega)]
        rfl
      | num n0 =>
        cases n0 with
        | ofNat m =>
          obtain ⟨d, ds, hds⟩ : ∃ d ds, natToStr m = d :: ds := by
            cases hnt : natToStr m with
            | nil => exact absurd hnt (natToStr_ne_nil m)
            | cons d ds => exact ⟨d, ds, rfl⟩
          have hdig : d.isDigit = true := by
            have hall := natToStr_all_digits m
            rw [hds] at hall
            exact hall d (by simp)
          show parseVal (f + 1) (natToStr m ++ r) = some (.num (Int.ofNat m), r)
          rw [hds, List.cons_append, parseVal.eq_def]
          simp only []
          rw [if_neg (fun he => absurd hdig (by subst he; decide)),
            if_neg (fun he => absurd hdig (by subst he; decide)),
            if_neg (fun he => absurd hdig (by subst he; decide)),
            if_neg (fun he => absurd hdig (by subst he; decide)),
            if_neg (fun he => absurd hdig (by subst he; decide)),
            if_neg (fun he => absurd hdig (by subst he; decide)),
            if_pos (by simp [hdig])]
          have hnum := parseNumTok_intToStr (Int.ofNat m) r hr
          rw [show intToStr (Int.ofNat m) = natToStr m from rfl, hds,
            List.cons_append] at hnum
          rw [hnum]
          rfl
        | negSucc m =>
          show parseVal (f + 1) (('-' :: natToStr (m + 1)) ++ r) =
            some (.num (Int.negSucc m), r)
          rw [List.cons_append, parseVal.eq_def]
          simp only []
          rw [if_neg (by decide : ¬('-' = '"')),
            if_neg (by decide : ¬('-' = '[')),
            if_neg (by decide : ¬('-' = '\x7b')),
            if_neg (by decide : ¬('-' = 'n')),
            if_neg (by decide : ¬('-' = 't')),
            if_neg (by decide : ¬('-' = 'f')),
            if_pos (by decide)]
          have hnum := parseNumTok_intToStr (Int.negSucc m) r hr
          rw [show intToStr (Int.negSucc m) = '-' :: natToStr (m + 1) from rfl,
            List.cons_append] at hnum
          rw [hnum]
          rfl
      | arr xs =>
        have hncL : noCallableList xs = true := hnc
        cases xs with
        | nil => rfl
        | cons x t =>
          have hszL : jsizeL (x :: t) ≤ f := by
            rw [jsize] at hfuel
            omega
          have hpt : ∀ y ∈ (x :: t), ∀ (fuel2 : Nat) (r2 : Str), jsize y ≤ fuel2 →
              noDigitHead r2 = true →
              parseVal fuel2 (stringifyMarked y ++ r2) = some (y, r2) := by
            intro y hy fuel2 r2 hsz2 hr2
            have hlt := jsize_lt_of_mem hy
            have hyN : jsize y ≤ n := by
              rw [jsize] at hN
              omega
            exact ih y hyN (noCallable_of_memL hncL hy) fuel2 r2 hsz2 hr2
          obtain ⟨K, hK⟩ : ∃ K, joinSep [','] (stringifyMarkedList (x :: t)) =
              stringifyMarked x ++ K := by
            cases t with
            | nil => exact ⟨[], by simp [stringifyMarkedList, joinSep]⟩
            | cons y t2 =>
              refine ⟨[','] ++ joinSep [','] (stringifyMarkedList (y :: t2)), ?_⟩
              show joinSep [','] (stringifyMarked x :: stringifyMarked y ::
                stringifyMarkedList t2) = _
              rw [joinSep_cons_cons]
              simp [stringifyMarkedList, List.append_assoc]
          obtain ⟨e, er, he⟩ : ∃ e er, stringifyMarked x = e :: er := by
            cases hs : stringifyMarked x with
            | nil => exact absurd hs (stringifyMarked_ne_nil x)
            | cons e er => exact ⟨e, er, rfl⟩
          have hne : ¬ e = ']' := (stringifyMarked_head_not_closer x e er he).1
          have hin : stringifyMarked (JVal.arr (x :: t)) ++ r =
              '[' :: (joinSep [','] (stringifyMarkedList (x :: t)) ++ (']' :: r)) := by
            show ('[' :: (joinSep [','] (stringifyMarkedList (x :: t)) ++ [']'])) ++ r = _
            simp [List.append_assoc]
          have hJr : joinSep [','] (stringifyMarkedList (x :: t)) ++ (']' :: r) =
              e :: (er ++ K ++ (']' :: r)) := by
            rw [hK, he]
            simp [List.append_assoc]
          rw [hin, parseVal.eq_def]
          simp only [if_true]
          rw [if_neg (by decide : ¬('[' = '"')), hJr]
          simp only []
          rw [if_neg hne, ← hJr]
          rw [parseElems_rt (x :: t) hpt (by simp) f r hszL]
          rfl
      | obj fs =>
        have hm : objMarkedCallable fs = false := by
          rw [noCallable, Bool.and_eq_true, Bool.not_eq_true'] at hnc
          exact hnc.1
        have hncF : noCallableFields fs = true := by
          rw [noCallable, Bool.and_eq_true] at hnc
          exact hnc.2
        cases fs with
        | nil =>
          show parseVal (f + 1)
            ((if objMarkedCallable [] then
              quoteStr (FUNC_START ++ "[object Object]".toList ++ FUNC_STOP)
            else '\x7b' :: (joinSep [','] (stringifyMarkedFields []) ++ ['\x7d'])) ++ r) =
            some (.obj [], r)
          rw [if_neg (by rw [hm]; simp)]
          rfl
        | cons kv t =>
          obtain ⟨k, v0⟩ := kv
          have hszF : jsizeF ((k, v0) :: t) ≤ f := by
            rw [jsize] at hfuel
            omega
          have hpt : ∀ k2 v2, (k2, v2) ∈ ((k, v0) :: t) →
              ∀ (fuel2 : Nat) (r2 : Str), jsize v2 ≤ fuel2 →
              noDigitHead r2 = true →
              parseVal fuel2 (stringifyMarked v2 ++ r2) = some (v2, r2) := by
            intro k2 v2 hv fuel2 r2 hsz2 hr2
            have hlt := jsize_lt_of_memF hv
            have hvN : jsize v2 ≤ n := by
              rw [jsize] at hN
              omega
            exact ih v2 hvN (noCallable_of_memF hncF hv) fuel2 r2 hsz2 hr2
          obtain ⟨K, hK⟩ : ∃ K, joinSep [','] (stringifyMarkedFields ((k, v0) :: t)) =
              '"' :: (escStr k ++ ('"' :: (':' :: (stringifyMarked v0 ++ K)))) := by
            cases t with
            | nil =>
              refine ⟨[], ?_⟩
              show quoteStr k ++ ':' :: stringifyMarked v0 = _
              simp [quoteStr, List.append_assoc]
            | cons kv2 t2 =>
              obtain ⟨k2, v2⟩ := kv2
              refine ⟨[','] ++ joinSep [','] (stringifyMarkedFields ((k2, v2) :: t2)), ?_⟩
              show joinSep [','] ((quoteStr k ++ ':' :: stringifyMarked v0) ::
                (quoteStr k2 ++ ':' :: stringifyMarked v2) ::
                stringifyMarkedFields t2) = _
              rw [joinSep_cons_cons]
              simp [quoteStr, List.append_assoc, stringifyMarkedFields]
          have hin : stringifyMarked (JVal.obj ((k, v0) :: t)) ++ r =
              '\x7b' :: (joinSep [','] (stringifyMarkedFields ((k, v0) :: t)) ++
                ('\x7d' :: r)) := by
            show (if objMarkedCallable ((k, v0) :: t) then
                quoteStr (FUNC_START ++ "[object Object]".toList ++ FUNC_STOP)
              else '\x7b' :: (joinSep [','] (stringifyMarkedFields ((k, v0) :: t)) ++
                ['\x7d'])) ++ r = _
            rw [if_neg (by rw [hm]; simp)]
            simp [List.append_assoc]
          have hJr : joinSep [','] (stringifyMarkedFields ((k, v0) :: t)) ++
              ('\x7d' :: r) =
              '"' :: (escStr k ++ ('"' :: (':' :: (stringifyMarked v0 ++ K))) ++
                ('\x7d' :: r)) := by
            rw [hK]
            simp [List.append_assoc]
          rw [hin, parseVal.eq_def]
          simp only [if_true]
          rw [if_neg (by decide : ¬('\x7b' = '"')),
            if_neg (by decide : ¬('\x7b' = '[')), hJr]
          simp only []
          rw [if_neg (by decide : ¬('"' = '\x7d')), ← hJr]
          rw [parseFields_rt ((k, v0) :: t) hpt (by simp) f r hszF]
          rfl

theorem jsizeL_le_join_length (xs : List JVal)
    (hpt : ∀ x ∈ xs, jsize x ≤ (stringifyMarked x).length) :
    jsizeL xs ≤ 1 + (joinSep [','] (stringifyMarkedList xs)).length := by
  induction xs with
  | nil => simp [jsizeL, stringifyMarkedList, joinSep]
  | cons x t ih =>
    cases t with
    | nil =>
      have h1 := hpt x (by simp)
      have h3 := stringifyMarked_length_pos x
      have h2 : joinSep [','] (stringifyMarkedList [x]) = stringifyMarked x := by
        simp [stringifyMarkedList, joinSep]
      rw [h2]
      simp only [jsizeL]
      omega
    | cons y t2 =>
      have h1 := hpt x (by simp)
      have h2 := ih (fun z hz => hpt z (by simp [hz]))
      have h3 := stringifyMarked_length_pos x
      have hj : joinSep [','] (stringifyMarkedList (x :: y :: t2)) =
          stringifyMarked x ++ [','] ++
            joinSep [','] (stringifyMarkedList (y :: t2)) := by
        show joinSep [','] (stringifyMarked x :: stringifyMarked y ::
          stringifyMarkedList t2) = _
        exact joinSep_cons_cons [','] _ _ _
      rw [hj, jsizeL]
      simp only [List.length_append, List.length_cons, List.length_nil]
      omega

theorem jsizeF_le_join_length (fs : List (Str × JVal))
    (hpt : ∀ k v, (k, v) ∈ fs → jsize v ≤ (stringifyMarked v).length) :
    jsizeF fs ≤ 1 + (joinSep [','] (stringifyMarkedFields fs)).length := by
  induction fs with
  | nil => simp [jsizeF, stringifyMarkedFields, joinSep]
  | cons kv t ih =>
    obtain ⟨k, v⟩ := kv
    cases t with
    | nil =>
      have h1 := hpt k v (by simp)
      have h3 := stringifyMarked_length_pos v
      have h2 : joinSep [','] (stringifyMarkedFields [(k, v)]) =
          quoteStr k ++ ':' :: stringifyMarked v := by
        simp [stringifyMarkedFields, joinSep]
      rw [h2]
      simp only [jsizeF, List.length_append, List.length_cons]
      omega
    | cons kv2 t2 =>
      obtain ⟨k2, v2⟩ := kv2
      have h1 := hpt k v (by simp)
      have h2 := ih (fun k3 v3 h3 => hpt k3 v3 (by simp [h3]))
      have h3 := stringifyMarked_length_pos v
      have hj : joinSep [','] (stringifyMarkedFields ((k, v) :: (k2, v2) :: t2)) =
          (quoteStr k ++ ':' :: stringifyMarked v) ++ [','] ++
            joinSep [','] (stringifyMarkedFields ((k2, v2) :: t2)) := by
        show joinSep [','] ((quoteStr k ++ ':' :: stringifyMarked v) ::
          (quoteStr k2 ++ ':' :: stringifyMarked v2) ::
          stringifyMarkedFields t2) = _
        exact joinSep_cons_cons [','] _ _ _
      rw [hj, jsizeF]
      simp only [List.length_append, List.length_cons, List.length_nil]
      omega

theorem jsize_le_length_aux : ∀ (N : Nat) (v : JVal), jsize v ≤ N →
    noCallable v = true → jsize v ≤ (stringifyMarked v).length := by
  intro N
  induction N with
  | zero =>
    intro v hN
    have := jsize_pos v
    omega
  | succ n ih =>
    intro v hN hnc
    cases v with
    | null => decide
    | bool b => cases b <;> decide
    | num n0 =>
      show 1 ≤ (intToStr n0).length
      cases n0 with
      | ofNat m =>
        show 1 ≤ (natToStr m).length
        cases hnt : natToStr m with
        | nil => exact absurd hnt (natToStr_ne_nil m)
        | cons d ds => simp
      | negSucc m => simp [intToStr]
    | str s =>
      show 1 ≤ (('"' :: escStr s) ++ ['"']).length
      simp
    | func src a => simp [noCallable] at hnc
    | arr xs =>
      have hncL : noCallableList xs = true := hnc
      have hpt : ∀ x ∈ xs, jsize x ≤ (stringifyMarked x).length := fun x hx =>
        ih x (by
          have := jsize_lt_of_mem hx
          rw [jsize] at hN
          omega) (noCallable_of_memL hncL hx)
      have h1 := jsizeL_le_join_length xs hpt
      show 1 + jsizeL xs ≤
        ('[' :: (joinSep [','] (stringifyMarkedList xs) ++ [']'])).length
      simp only [List.length_cons, List.length_append, List.length_nil]
      omega
    | obj fs =>
      have hm : objMarkedCallable fs = false := by
        rw [noCallable, Bool.and_eq_true, Bool.not_eq_true'] at hnc
        exact hnc.1
      have hncF : noCallableFields fs = true := by
        rw [noCallable, Bool.and_eq_true] at hnc
        exact hnc.2
      have hpt : ∀ k v, (k, v) ∈ fs → jsize v ≤ (stringifyMarked v).length :=
        fun k v hv =>
        ih v (by
          have := jsize_lt_of_memF hv
          rw [jsize] at hN
          omega) (noCallable_of_memF hncF hv)
      have h1 := jsizeF_le_join_length fs hpt
      have hrw : stringifyMarked (JVal.obj fs) =
          '\x7b' :: (joinSep [','] (stringifyMarkedFields fs) ++ ['\x7d']) := by
        rw [stringifyMarked, if_neg (by rw [hm]; simp)]
      rw [jsize, hrw]
      simp only [List.length_cons, List.length_append, List.length_nil]
      omega

theorem jsize_le_length (v : JVal) (h : noCallable v = true) :
    jsize v ≤ (stringifyMarked v).length :=
  jsize_le_length_aux (jsize v) v le_rfl h

theorem stringifyStdList_agree (xs : List JVal)
    (hpt : ∀ x ∈ xs, stringifyStd x = some (stringifyMarked x)) :
    stringifyStdList xs = stringifyMarkedList xs := by
  induction xs with
  | nil => rfl
  | cons x t ih =>
    rw [stringifyStdList, hpt x (by simp),
      ih (fun z hz => hpt z (by simp [hz]))]
    rfl

theorem stringifyStdFields_agree (fs : List (Str × JVal))
    (hpt : ∀ k v, (k, v) ∈ fs → stringifyStd v = some (stringifyMarked v)) :
    stringifyStdFields fs = stringifyMarkedFields fs := by
  induction fs with
  | nil => rfl
  | cons kv t ih =>
    obtain ⟨k, v⟩ := kv
    rw [stringifyStdFields, hpt k v (by simp)]
    simp only []
    rw [ih (fun k2 v2 h2 => hpt k2 v2 (by simp [h2]))]
    rfl

theorem stringifyStd_agree_aux : ∀ (N : Nat) (v : JVal), jsize v ≤ N →
    noCallable v = true → stringifyStd v = some (stringifyMarked v) := by
  intro N
  induction N with
  | zero =>
    intro v hN
    have := jsize_pos v
    omega
  | succ n ih =>
    intro v hN hnc
    cases v with
    | null => rfl
    | bool b => cases b <;> rfl
    | num n0 => rfl
    | str s => rfl
    | func src a => simp [noCallable] at hnc
    | arr xs =>
      have hncL : noCallableList xs = true := hnc
      have hpt : ∀ x ∈ xs, stringifyStd x = some (stringifyMarked x) := fun x hx =>
        ih x (by
          have := jsize_lt_of_mem hx
          rw [jsize] at hN
          omega) (noCallable_of_memL hncL hx)
      rw [stringifyStd, stringifyStdList_agree xs hpt]
      rfl
    | obj fs =>
      have hm : objMarkedCallable fs = false := by
        rw [noCallable, Bool.and_eq_true, Bool.not_eq_true'] at hnc
        exact hnc.1
      have hncF : noCallableFields fs = true := by
        rw [noCallable, Bool.and_eq_true] at hnc
        exact hnc.2
      have hpt : ∀ k v, (k, v) ∈ fs → stringifyStd v = some (stringifyMarked v) :=
        fun k v hv =>
        ih v (by
          have := jsize_lt_of_memF hv
          rw [jsize] at hN
          omega) (noCallable_of_memF hncF hv)
      have hrw : stringifyMarked (JVal.obj fs) =
          '\x7b' :: (joinSep [','] (stringifyMarkedFields fs) ++ ['\x7d']) := by
        rw [stringifyMarked, if_neg (by rw [hm]; simp)]
      rw [stringifyStd, stringifyStdFields_agree fs hpt, hrw]

theorem stringifyStd_agree (v : JVal) (h : noCallable v = true) :
    stringifyStd v = some (stringifyMarked v) :=
  stringifyStd_agree_aux (jsize v) v le_rfl h

/-- C1: for every configuration value with no callable fields (and, as the
correction requires, whose serialized text contains no occurrence of the
start sentinel), the serializer output equals the standard structured-data
JSON encoding of the value, and parsing that output as data recovers a value
deep-equal (here: structurally equal) to the input configuration. -/
theorem claim_C1_roundtrip (v : JVal) (hnc : noCallable v = true)
    (hsafe : hasSub (stringifyMarked v) FUNC_START = false) :
    (stringifyWithFunctions v).bind jsonParse = some v ∧
    stringifyWithFunctions v = stringifyStd v := by
  have hs : stringifyWithFunctions v = some (stringifyMarked v) :=
    spliceLoop_exit _ _ hsafe
  constructor
  · rw [hs]
    show jsonParse (stringifyMarked v) = some v
    rw [jsonParse]
    have h := parseVal_rt (jsize v) v le_rfl hnc
      ((stringifyMarked v).length + 1) []
      (by have := jsize_le_length v hnc; omega) rfl
    rw [List.append_nil] at h
    rw [h]
  · rw [hs, stringifyStd_agree v hnc]

/-- The round trip of C1 on the example configuration of the spec. -/
theorem claim_C1_witness :
    noCallable (JVal.obj exampleConfigC5) = true ∧
    hasSub (stringifyMarked (JVal.obj exampleConfigC5)) FUNC_START = false ∧
    ((stringifyWithFunctions (JVal.obj exampleConfigC5)).bind jsonParse =
        some (JVal.obj exampleConfigC5) ∧
      stringifyWithFunctions (JVal.obj exampleConfigC5) =
        stringifyStd (JVal.obj exampleConfigC5)) :=
  ⟨by decide, by decide,
    claim_C1_roundtrip (JVal.obj exampleConfigC5) (by decide) (by decide)⟩

/-- C1 fails as literally stated: this value has no callable fields and only
JSON-representable literals, yet parsing the serializer output does not
recover it - the sentinel text inside its string field triggers the splice
loop, which corrupts pure data. -/
theorem claim_C1_counterexample :
    noCallable exC1 = true ∧
    (stringifyWithFunctions exC1).bind jsonParse ≠ some exC1 := by
  refine ⟨by decide, ?_⟩
  have h : (stringifyWithFunctions exC1).bind jsonParse = none := by rfl
  rw [h]
  exact fun he => Option.noConfusion he
